import Mathlib

set_option autoImplicit false

/-!
# durablewit: the migration pipeline of `cmd/durablewit/main.go`

A shallow embedding of the four pipeline stages (`openGifwitDb`, `hashGifs`,
`checkAndUploadGif`, `writeNewURLToGifWit`) and of the helpers they call.

Conventions of the embedding.

* Channels are lists: the list a stage receives is the sequence of items one
  worker takes from its input channel, the list it returns is the sequence of
  items it sends downstream.
* Everything outside the program (local file system, image sniffer, MD5, the
  S3 client and uploader, the SQLite store) is a parameter: pure library
  functions are fields of `Lib`, the S3 service is a state-passing `S3 σ`, the
  record store is a table together with the failures its next calls will report.
* Console output and calls to the outside are recorded as `Event`s.
* `log.Fatal` and a nil dereference end the process: `Exit.fatal`, `Exit.panicked`.
* `pipeline` composes the stages with one worker each, run one after the other;
  the scheduling of the ten workers per stage and the closing of the channels
  are outside the embedding.
-/

namespace Durablewit

/-! ## Data model -/

/-- Gif representing db gif entry. -/
structure Gif where
  id : Int
  filename : String
  url : String
  hash : String
  newURL : String
  fullfilename : String
  deriving DecidableEq, Repr

/-- A Go `error` value, as far as the program inspects it: either it satisfies
`awserr.Error` (and has a `Code()`), or it does not. -/
inductive GoError where
  | aws (code message : String)
  | plain (message : String)
  deriving DecidableEq, Repr

/-- How a goroutine, and with it the process, leaves a loop. -/
inductive Exit where
  | completed
  | fatal (err : GoError)
  | panicked
  deriving DecidableEq, Repr

/-- State of a path of the local file system, as `os.Stat`, `os.Open` and reads
see it.

* `absent`: there is no file and `os.Stat` fails with a not-exist error
  (`ENOENT`);
* `badPath err`: there is no file either, and the path cannot be resolved:
  `os.Stat` and `os.Open` fail with `err`, which is not a not-exist error
  (`ENOTDIR` below a regular file, `ENAMETOOLONG`);
* `noAccess`: there is a file and `os.Open` fails;
* `ioError`: there is a file, it opens, and reading it fails;
* `bytes data`: there is a file that opens and reads as `data`. -/
inductive File where
  | absent
  | badPath (err : GoError)
  | noAccess
  | ioError
  | bytes (data : List Nat)
  deriving DecidableEq, Repr

/-- The local file system: what is found at each path. -/
abbrev FileSystem := String → File

/-- The `*os.File` returned by `os.Open`: `nil` when opening failed, a handle
whose reads fail, or a handle that yields the file's bytes (from offset 0 after
each `Seek(0, 0)`). -/
inductive Handle where
  | nil
  | failing
  | reading (data : List Nat)
  deriving DecidableEq, Repr

/-- Library functions the program calls and does not define. -/
structure Lib where
  /-- Function `filepath.Join`. -/
  filepathJoin : String → String → String
  /-- Function `hex.EncodeToString` of the `md5` sum of the bytes. -/
  md5Hex : List Nat → String
  /-- Function `image.DecodeConfig`: the format name, or an error. -/
  decodeConfig : List Nat → Except GoError String
  /-- Function `mime.TypeByExtension`. -/
  typeByExtension : String → String

/-- Fields of `s3manager.UploadInput` the program sets. -/
structure UploadInput where
  bucket : String
  key : String
  body : Handle
  acl : String
  contentType : String
  deriving DecidableEq, Repr

/-- The `*s3manager.UploadOutput`. -/
structure UploadOutput where
  location : String
  deriving DecidableEq, Repr

/-- What `uploader.Upload` returns: a pointer that may be nil, and an error. -/
structure UploadReturn where
  result : Option UploadOutput
  err : Option GoError
  deriving DecidableEq, Repr

/-- The S3 client and uploader, over a state `σ` of the remote side.
`headObject` returns the error of `svc.HeadObject`, `upload` what
`uploader.Upload` returns; `newSession` is the error of `session.NewSession`. -/
structure S3 (σ : Type) where
  newSession : Option GoError
  headObject : σ → String → String → Option GoError × σ
  upload : σ → UploadInput → UploadReturn × σ

/-- Lines the program prints. -/
inductive Line where
  | placingOnHashChan (filename : String)
  | gotFromHashChan (filename : String)
  | placingOnUploadChan (gif : Gif)
  | failedToOpen (filename : String) (err : GoError)
  | fileExists (remoteFilename : String)
  | failedToUpload (err : GoError)
  | fileUploadedTo (location : String)
  | error (err : GoError)
  | affected (rows : Nat)
  | mainCompleted
  deriving DecidableEq, Repr

/-- Observable actions of a run, in order. -/
inductive Event where
  | print (line : Line)
  | headObject (bucket key : String)
  | upload (input : UploadInput)
  | query (pattern : String)
  | prepare
  | exec (newURL : String) (id : Int)
  deriving DecidableEq, Repr

/-- Result of one iteration of a `for gif := range c` body: an item is sent
downstream, or nothing is and the loop goes on, or the process ends in
`log.Fatal` or in a panic. -/
inductive Step where
  | forward (gif : Gif)
  | skip
  | fatal (err : GoError)
  | panic
  deriving DecidableEq, Repr

/-- The loop `for gif := range c { body }` of one worker: runs `body` on the items
in order, collecting what is sent downstream, until the channel is drained or
the process ends. -/
def rangeLoop {σ : Type} (body : Gif → σ → Step × List Event × σ) :
    List Gif → σ → Exit × List Gif × List Event × σ
  | [], w => (Exit.completed, [], [], w)
  | gif :: rest, w =>
    match body gif w with
    | (Step.fatal err, ev, w1) => (Exit.fatal err, [], ev, w1)
    | (Step.panic, ev, w1) => (Exit.panicked, [], ev, w1)
    | (Step.skip, ev, w1) =>
      match rangeLoop body rest w1 with
      | (x, out, ev2, w2) => (x, out, ev ++ ev2, w2)
    | (Step.forward g, ev, w1) =>
      match rangeLoop body rest w1 with
      | (x, out, ev2, w2) => (x, g :: out, ev ++ ev2, w2)

/-! ## Fingerprint stage -/

/-- Exists checks if a file exists. It answers false only when the error of
`os.Stat` satisfies `os.IsNotExist`, and true on every other outcome of
`os.Stat`, a failure for another reason included. -/
def Exists (fs : FileSystem) (filename : String) : Bool :=
  match fs filename with
  | File.absent => false
  | _ => true

/-- Function `os.Open`. -/
def osOpen (fs : FileSystem) (path : String) : Handle × Option GoError :=
  match fs path with
  | File.absent => (Handle.nil, some (GoError.plain "no such file or directory"))
  | File.badPath err => (Handle.nil, some err)
  | File.noAccess => (Handle.nil, some (GoError.plain "permission denied"))
  | File.ioError => (Handle.failing, none)
  | File.bytes d => (Handle.reading d, none)

/-- Function `hashFiles`: the hex MD5 of the file, or the error of opening or
reading it. -/
def hashFiles (lib : Lib) (fs : FileSystem) (filePath : String) : Except GoError String :=
  match osOpen fs filePath with
  | (_, some err) => Except.error err
  | (Handle.nil, none) => Except.error (GoError.plain "invalid argument")
  | (Handle.failing, none) => Except.error (GoError.plain "input/output error")
  | (Handle.reading d, none) => Except.ok (lib.md5Hex d)

/-- Body of the loop of `hashGifs`. -/
def hashGifsItem (lib : Lib) (fs : FileSystem) (canonicalGifwitDir : String) (gif : Gif)
    (w : Unit) : Step × List Event × Unit :=
  let imageFilename := lib.filepathJoin canonicalGifwitDir gif.filename
  if Exists fs imageFilename then
    match hashFiles lib fs imageFilename with
    | Except.error err =>
      (Step.fatal err, [Event.print (Line.gotFromHashChan gif.filename)], w)
    | Except.ok hash =>
      let gif1 := { gif with hash := hash, fullfilename := imageFilename }
      (Step.forward gif1,
        [Event.print (Line.gotFromHashChan gif.filename),
         Event.print (Line.placingOnUploadChan gif1)], w)
  else
    (Step.skip, [Event.print (Line.gotFromHashChan gif.filename)], w)

/-- Function `hashGifs`: one worker draining `hashChan` into `uploadChan`. -/
def hashGifs (lib : Lib) (fs : FileSystem) (canonicalGifwitDir : String)
    (hashChan : List Gif) : Exit × List Gif × List Event :=
  match rangeLoop (hashGifsItem lib fs canonicalGifwitDir) hashChan () with
  | (x, uploadChan, ev, _) => (x, uploadChan, ev)

/-! ## Dedup/upload stage -/

/-- Guess image format from gif/jpeg/png. -/
def guessImageFormat (lib : Lib) (r : Handle) : String × Option GoError :=
  match r with
  | Handle.nil => ("", some (GoError.plain "invalid argument"))
  | Handle.failing => ("", some (GoError.plain "input/output error"))
  | Handle.reading d =>
    match lib.decodeConfig d with
    | Except.ok format => (format, none)
    | Except.error err => ("", some err)

/-- Function `guessImageMimeTypes`. -/
def guessImageMimeTypes (lib : Lib) (r : Handle) : String :=
  let format := (guessImageFormat lib r).1
  if format = "" then "" else lib.typeByExtension ("." ++ format)

/-- Function `objExists`: the answer, what was printed, and the remote state. -/
def objExists {σ : Type} (svc : S3 σ) (w : σ) (bucket remoteFilename : String) :
    Bool × List Event × σ :=
  match svc.headObject w bucket remoteFilename with
  | (some (GoError.aws code message), w1) =>
    if code = "NotFound" then
      (false, [Event.headObject bucket remoteFilename], w1)
    else
      (true, [Event.headObject bucket remoteFilename,
              Event.print (Line.error (GoError.aws code message))], w1)
  | (some (GoError.plain message), w1) =>
    (true, [Event.headObject bucket remoteFilename,
            Event.print (Line.error (GoError.plain message))], w1)
  | (none, w1) => (true, [Event.headObject bucket remoteFilename], w1)

/-- Function `uploadGif`: `some location`, or `none` when `result.Location`
dereferences a nil `result`. -/
def uploadGif {σ : Type} (svc : S3 σ) (w : σ) (bucket remoteFilename mimeType : String)
    (f : Handle) : Option String × List Event × σ :=
  let input : UploadInput :=
    { bucket := bucket, key := remoteFilename, body := f, acl := "public-read",
      contentType := mimeType }
  match svc.upload w input with
  | (ret, w1) =>
    let failed : List Event :=
      match ret.err with
      | some err => [Event.print (Line.failedToUpload err)]
      | none => []
    match ret.result with
    | none => (none, Event.upload input :: failed, w1)
    | some out =>
      (some out.location,
        Event.upload input :: failed ++ [Event.print (Line.fileUploadedTo out.location)], w1)

/-- The key `strings.Join([]string{gif.hash, format}, ".")` that
`checkAndUploadGif` derives for an item. -/
def remoteFilename (lib : Lib) (fs : FileSystem) (gif : Gif) : String :=
  gif.hash ++ "." ++ (guessImageFormat lib (osOpen fs gif.fullfilename).1).1

/-- The location `checkAndUploadGif` builds for a key that exists. -/
def canonicalURL (region bucket remoteFilename : String) : String :=
  "https://s3-" ++ region ++ ".amazonaws.com/" ++ bucket ++ "/" ++ remoteFilename

/-- What `checkAndUploadGif` prints after `os.Open`: the failure, if there is one. -/
def openReport (gif : Gif) (err : Option GoError) : List Event :=
  match err with
  | some e => [Event.print (Line.failedToOpen gif.filename e)]
  | none => []

/-- Body of the loop of `checkAndUploadGif`. The call `svc.GetObjectRequest` of
the branch for an existing key only builds a request, which is discarded; it
leaves no event. -/
def checkAndUploadGifItem {σ : Type} (lib : Lib) (fs : FileSystem) (svc : S3 σ)
    (region bucket : String) (gif : Gif) (w : σ) : Step × List Event × σ :=
  let opened := osOpen fs gif.fullfilename
  let f := opened.1
  let evOpen := openReport gif opened.2
  let mimeType := guessImageMimeTypes lib f
  let key := remoteFilename lib fs gif
  match objExists svc w bucket key with
  | (true, ev, w1) =>
    (Step.forward { gif with newURL := canonicalURL region bucket key },
      evOpen ++ ev ++ [Event.print (Line.fileExists key)], w1)
  | (false, ev, w1) =>
    match uploadGif svc w1 bucket key mimeType f with
    | (some location, ev2, w2) =>
      (Step.forward { gif with newURL := location }, evOpen ++ ev ++ ev2, w2)
    | (none, ev2, w2) => (Step.panic, evOpen ++ ev ++ ev2, w2)

/-- Function `checkAndUploadGif`: one worker draining `uploadChan` into
`saveChan`. -/
def checkAndUploadGif {σ : Type} (lib : Lib) (fs : FileSystem) (svc : S3 σ)
    (region bucket : String) (uploadChan : List Gif) (w : σ) :
    Exit × List Gif × List Event × σ :=
  match svc.newSession with
  | some err => (Exit.fatal err, [], [], w)
  | none => rangeLoop (checkAndUploadGifItem lib fs svc region bucket) uploadChan w

/-! ## Record store -/

/-- A row of table `ZIMAGE`, with the columns the program reads; a column that
holds NULL is `none`. -/
structure Row where
  Z_PK : Int
  ZCACHE_FILE : Option String
  ZURL : Option String
  ZDOWNLOADED : Option Int
  deriving DecidableEq, Repr

/-- The table `ZIMAGE`. -/
abbrev Table := List Row

/-- Failure of one `stmt.Exec` call: none, `Exec` returns an error (nothing is
written), or `RowsAffected` returns an error (the update has been written). -/
inductive ExecFault where
  | none
  | execFails (err : GoError)
  | rowsAffectedFails (err : GoError)
  deriving DecidableEq, Repr

/-- Failures the record store reports during one run: of `db.Query`, of
`rows.Err()` after some number of rows, of `db.Prepare`, and of the successive
`stmt.Exec` calls (a call beyond the end of the list succeeds). -/
structure DbFaults where
  queryErr : Option GoError
  rowsErr : Option (Nat × GoError)
  prepareErr : Option GoError
  execFaults : List ExecFault
  deriving DecidableEq, Repr

/-- Code point of a character with ASCII upper case folded to lower case, the
comparison key of SQLite's `LIKE`. -/
def foldCase (c : Char) : Nat :=
  if 65 ≤ c.toNat ∧ c.toNat ≤ 90 then c.toNat + 32 else c.toNat

/-- Matching of the wildcard `%` of `LIKE`: the rest of the pattern, `k`, matches
some suffix of the text. -/
def likeAny (k : List Char → Bool) : List Char → Bool
  | [] => k []
  | c :: cs => k (c :: cs) || likeAny k cs

/-- SQLite's `text LIKE pattern` (no escape character): `%` matches any run of
characters, `_` one character, any other character itself up to ASCII case. -/
def sqlLike : List Char → List Char → Bool
  | [], text => text.isEmpty
  | p :: ps, text =>
    if p = '%' then likeAny (sqlLike ps) text
    else
      match text with
      | [] => false
      | c :: cs => (p = '_' || foldCase p = foldCase c) && sqlLike ps cs

/-- The `where` clause of the enumerator's query:
`ZDOWNLOADED=1 AND ZURL NOT LIKE $1`. -/
def eligible (pattern : String) (r : Row) : Bool :=
  r.ZDOWNLOADED = some 1 &&
    match r.ZURL with
    | some u => !sqlLike pattern.data u.data
    | none => false

/-- Result set of
`select Z_PK, ZCACHE_FILE, ZURL from ZIMAGE where ZDOWNLOADED=1 AND ZURL NOT LIKE $1 order by Z_PK`. -/
def selectRows (table : Table) (pattern : String) : List Row :=
  (table.filter (eligible pattern)).insertionSort (fun a b => a.Z_PK ≤ b.Z_PK)

/-- The loop `for rows.Next()` of `openGifwitDb`: scans each row into a `Gif`
and sends it; `rows.Scan` fails on a NULL text column. -/
def scanRows : List Row → Exit × List Gif × List Event
  | [] => (Exit.completed, [], [])
  | r :: rest =>
    match r.ZCACHE_FILE, r.ZURL with
    | some filename, some url =>
      match scanRows rest with
      | (x, out, ev) =>
        (x, { id := r.Z_PK, filename := filename, url := url, hash := "", newURL := "",
              fullfilename := "" } :: out,
          Event.print (Line.placingOnHashChan filename) :: ev)
    | _, _ =>
      (Exit.fatal (GoError.plain "converting NULL to string is unsupported"), [], [])

/-- Function `openGifwitDb`: the items sent on `hashChan`. -/
def openGifwitDb (table : Table) (faults : DbFaults) (bucket : String) :
    Exit × List Gif × List Event :=
  let pattern := "%" ++ bucket ++ "%"
  match faults.queryErr with
  | some err => (Exit.fatal err, [], [Event.query pattern])
  | none =>
    match faults.rowsErr with
    | none =>
      match scanRows (selectRows table pattern) with
      | (x, out, ev) => (x, out, Event.query pattern :: ev)
    | some (n, err) =>
      match scanRows ((selectRows table pattern).take n) with
      | (Exit.completed, out, ev) => (Exit.fatal err, out, Event.query pattern :: ev)
      | (x, out, ev) => (x, out, Event.query pattern :: ev)

/-- The statement `UPDATE ZIMAGE SET ZURL=? WHERE Z_PK=?`. -/
def sqlUpdate (table : Table) (newURL : String) (id : Int) : Table :=
  table.map (fun r => if r.Z_PK = id then { r with ZURL := some newURL } else r)

/-- Rows the statement `UPDATE ZIMAGE SET ZURL=? WHERE Z_PK=?` affects. -/
def rowsAffected (table : Table) (id : Int) : Nat :=
  (table.filter (fun r => r.Z_PK = id)).length

/-- Body of the loop of `writeNewURLToGifWit`, on the table and the failures
of the coming `Exec` calls. -/
def writeItem (gif : Gif) (s : Table × List ExecFault) :
    Step × List Event × (Table × List ExecFault) :=
  match s.2.headD ExecFault.none with
  | ExecFault.execFails err =>
    (Step.fatal err, [Event.exec gif.newURL gif.id], (s.1, s.2.tail))
  | ExecFault.rowsAffectedFails err =>
    (Step.fatal err, [Event.exec gif.newURL gif.id],
      (sqlUpdate s.1 gif.newURL gif.id, s.2.tail))
  | ExecFault.none =>
    (Step.skip,
      [Event.exec gif.newURL gif.id, Event.print (Line.affected (rowsAffected s.1 gif.id))],
      (sqlUpdate s.1 gif.newURL gif.id, s.2.tail))

/-- Function `writeNewURLToGifWit`: the single writer draining `saveChan`. -/
def writeNewURLToGifWit (table : Table) (faults : DbFaults) (saveChan : List Gif) :
    Exit × List Event × Table :=
  match faults.prepareErr with
  | some err => (Exit.fatal err, [Event.prepare], table)
  | none =>
    match rangeLoop writeItem saveChan (table, faults.execFaults) with
    | (x, _, ev, s) => (x, Event.prepare :: ev, s.1)

/-- The table after the updates of the given items, applied in queue order. -/
def applyUpdates (table : Table) (items : List Gif) : Table :=
  items.foldl (fun t gif => sqlUpdate t gif.newURL gif.id) table

/-- The `stmt.Exec` calls among the events, in order, with their arguments. -/
def execCalls (events : List Event) : List (String × Int) :=
  events.filterMap (fun e =>
    match e with
    | Event.exec newURL id => some (newURL, id)
    | _ => none)

/-! ## The pipeline -/

/-- The pipeline started by the action of `main`, after bucket set-up, with one
worker per stage and the stages run one after the other: enumerate, hash, check
and upload, write. A stage that ends the process ends the run there. Returns
the exit, the table, the remote state and the events. -/
def pipeline {σ : Type} (lib : Lib) (fs : FileSystem) (svc : S3 σ)
    (canonicalGifwitDir region bucketName : String) (table : Table) (faults : DbFaults)
    (w : σ) : Exit × Table × σ × List Event :=
  let enumerated := openGifwitDb table faults bucketName
  if enumerated.1 = Exit.completed then
    let hashed := hashGifs lib fs canonicalGifwitDir enumerated.2.1
    if hashed.1 = Exit.completed then
      let uploaded := checkAndUploadGif lib fs svc region bucketName hashed.2.1 w
      if uploaded.1 = Exit.completed then
        let saved := writeNewURLToGifWit table faults uploaded.2.1
        (saved.1, saved.2.2, uploaded.2.2.2,
          enumerated.2.2 ++ hashed.2.2 ++ uploaded.2.2.1 ++ saved.2.1 ++
            (if saved.1 = Exit.completed then [Event.print Line.mainCompleted] else []))
      else (uploaded.1, table, uploaded.2.2.2, enumerated.2.2 ++ hashed.2.2 ++ uploaded.2.2.1)
    else (hashed.1, table, w, enumerated.2.2 ++ hashed.2.2)
  else (enumerated.1, table, w, enumerated.2.2)

/-! ## Auxiliary functions of the statements -/

/-- The item `openGifwitDb` builds from a row it scans. -/
def rowGif (r : Row) : Gif :=
  { id := r.Z_PK, filename := r.ZCACHE_FILE.getD "", url := r.ZURL.getD "", hash := "",
    newURL := "", fullfilename := "" }

/-- The item `hashGifs` forwards for an item whose file is readable. -/
def hashedGif (lib : Lib) (fs : FileSystem) (canonicalGifwitDir : String) (gif : Gif) :
    Option Gif :=
  match fs (lib.filepathJoin canonicalGifwitDir gif.filename) with
  | File.bytes d =>
    some { gif with hash := lib.md5Hex d,
                    fullfilename := lib.filepathJoin canonicalGifwitDir gif.filename }
  | _ => none

/-- A row after the updates of the given items, applied in queue order. -/
def updateRow (items : List Gif) (r : Row) : Row :=
  items.foldl (fun row gif => if row.Z_PK = gif.id then { row with ZURL := some gif.newURL } else row) r

/-- The key of a file's content: hex MD5, a dot, the sniffed format. -/
def contentKey (lib : Lib) (d : List Nat) : String :=
  lib.md5Hex d ++ "." ++ (guessImageFormat lib (Handle.reading d)).1

/-- How `checkAndUploadGif` relates an item it received to the item it sent on:
only `newURL` is set, to the canonical URL of the item's key or to a location
that `uploadGif` printed as uploaded. -/
def Forwarded (lib : Lib) (fs : FileSystem) (region bucket : String) (events : List Event)
    (g o : Gif) : Prop :=
  ∃ u, o = { g with newURL := u } ∧
    (u = canonicalURL region bucket (remoteFilename lib fs g)
      ∨ Event.print (Line.fileUploadedTo u) ∈ events)

/-- The locations `uploadGif` printed as uploaded, in order. -/
def uploadedLocations (events : List Event) : List String :=
  events.filterMap (fun e =>
    match e with
    | Event.print (Line.fileUploadedTo location) => some location
    | _ => none)

/-- The bytes `d` are the content of the readable file of a record that the
enumerator's query selects. -/
def EnumeratedFile (lib : Lib) (fs : FileSystem) (canonicalGifwitDir bucket : String)
    (table : Table) (d : List Nat) : Prop :=
  ∃ r ∈ table, eligible ("%" ++ bucket ++ "%") r = true ∧
    ∃ f, r.ZCACHE_FILE = some f ∧ fs (lib.filepathJoin canonicalGifwitDir f) = File.bytes d

/-- Events that neither call S3 nor write to the record store. -/
def quiet (e : Event) : Bool :=
  match e with
  | Event.headObject _ _ => false
  | Event.upload _ => false
  | Event.exec _ _ => false
  | _ => true

/-! ## A model of the bucket -/

/-- Objects held by the remote store: bucket and key, with the body. -/
abbrev Objects := List ((String × String) × List Nat)

/-- Body stored under a key of a bucket, the most recent `put` first. -/
def stored (objs : Objects) (bucket key : String) : Option (List Nat) :=
  match objs with
  | [] => none
  | (loc, body) :: rest => if loc = (bucket, key) then some body else stored rest bucket key

/-- An S3 endpoint over `Objects`. `HeadObject` answers from the objects held,
unless `headFault` is set, in which case every `HeadObject` fails with it.
`Upload` stores the bytes read from the body under the key and reports
`location bucket key`; it fails with a nil result when the body cannot be read
or when `uploadFault` is set. -/
def s3Model (location : String → String → String) (headFault uploadFault : Option GoError) :
    S3 Objects where
  newSession := none
  headObject := fun objs bucket key =>
    match headFault with
    | some err => (some err, objs)
    | none =>
      match stored objs bucket key with
      | some _ => (none, objs)
      | none => (some (GoError.aws "NotFound" "Not Found"), objs)
  upload := fun objs input =>
    match uploadFault, input.body with
    | some err, _ => ({ result := none, err := some err }, objs)
    | none, Handle.reading d =>
      ({ result := some { location := location input.bucket input.key }, err := none },
        ((input.bucket, input.key), d) :: objs)
    | none, _ =>
      ({ result := none, err := some (GoError.aws "ReadRequestBody" "unable to initialize upload") },
        objs)

/-! ## Sample inputs

A small library, file system, table and endpoint, on which the statements
below are instantiated. -/

/-- A sample `Lib`: paths are joined with `/`, three digests, and a sniffer
that knows the `GIF` signature. -/
def demoLib : Lib where
  filepathJoin := fun dir name => dir ++ "/" ++ name
  md5Hex := fun data =>
    match data with
    | [71, 73, 70, 1] => "0a"
    | [71, 73, 70, 2] => "0b"
    | _ => "00"
  decodeConfig := fun data =>
    match data with
    | 71 :: 73 :: 70 :: _ => Except.ok "gif"
    | _ => Except.error (GoError.plain "image: unknown format")
  typeByExtension := fun ext => if ext = ".gif" then "image/gif" else ""

/-- A sample directory: `a.gif` and `b.gif` hold the same bytes, `c.gif`
cannot be opened, `e.gif` holds other bytes, nothing else exists; the path
`a.gif/x`, below the regular file `a.gif`, fails to resolve with `ENOTDIR`. -/
def demoFs : FileSystem := fun path =>
  if path = "/g/a.gif" then File.bytes [71, 73, 70, 1]
  else if path = "/g/a.gif/x" then File.badPath (GoError.plain "not a directory")
  else if path = "/g/b.gif" then File.bytes [71, 73, 70, 1]
  else if path = "/g/c.gif" then File.noAccess
  else if path = "/g/e.gif" then File.bytes [71, 73, 70, 2]
  else File.absent

/-- A sample table: records 1 and 2 with identical files, record 3 whose file
is gone, record 4 already pointing into the bucket. -/
def demoTable : Table :=
  [ { Z_PK := 2, ZCACHE_FILE := some "b.gif", ZURL := some "http://x/b.gif",
      ZDOWNLOADED := some 1 },
    { Z_PK := 1, ZCACHE_FILE := some "a.gif", ZURL := some "http://x/a.gif",
      ZDOWNLOADED := some 1 },
    { Z_PK := 3, ZCACHE_FILE := some "gone.gif", ZURL := some "http://x/gone.gif",
      ZDOWNLOADED := some 1 },
    { Z_PK := 4, ZCACHE_FILE := some "d.gif",
      ZURL := some "https://s3-us-west-2.amazonaws.com/durablewit/0b.gif",
      ZDOWNLOADED := some 1 } ]

/-- A record store that reports no failure. -/
def noFaults : DbFaults :=
  { queryErr := none, rowsErr := none, prepareErr := none, execFaults := [] }

/-- The virtual-hosted location S3 reports for an uploaded object. -/
def vhostLocation (bucket key : String) : String :=
  "https://" ++ bucket ++ ".s3.us-west-2.amazonaws.com/" ++ key

/-- Item for `a.gif` as `hashGifs` forwards it. -/
def gifA : Gif :=
  { id := 1, filename := "a.gif", url := "http://x/a.gif", hash := "0a", newURL := "",
    fullfilename := "/g/a.gif" }

/-- Item for `b.gif` as `hashGifs` forwards it. -/
def gifB : Gif :=
  { id := 2, filename := "b.gif", url := "http://x/b.gif", hash := "0a", newURL := "",
    fullfilename := "/g/b.gif" }

/-- Item for `e.gif` as `hashGifs` forwards it. -/
def gifE : Gif :=
  { id := 5, filename := "e.gif", url := "http://x/e.gif", hash := "0b", newURL := "",
    fullfilename := "/g/e.gif" }

/-- Item whose file was hashed and has since been removed. -/
def gifGone : Gif :=
  { id := 3, filename := "gone.gif", url := "http://x/gone.gif", hash := "0a", newURL := "",
    fullfilename := "/g/gone.gif" }

/-- Item for `a.gif` as the enumerator sends it. -/
def rawA : Gif :=
  { id := 1, filename := "a.gif", url := "http://x/a.gif", hash := "", newURL := "",
    fullfilename := "" }

/-- Item for `b.gif` as the enumerator sends it. -/
def rawB : Gif :=
  { id := 2, filename := "b.gif", url := "http://x/b.gif", hash := "", newURL := "",
    fullfilename := "" }

/-- Item for `c.gif`, which cannot be opened, as the enumerator sends it. -/
def rawC : Gif :=
  { id := 6, filename := "c.gif", url := "http://x/c.gif", hash := "", newURL := "",
    fullfilename := "" }

/-- Item for the missing `gone.gif` as the enumerator sends it. -/
def rawGone : Gif :=
  { id := 3, filename := "gone.gif", url := "http://x/gone.gif", hash := "", newURL := "",
    fullfilename := "" }

/-- Item for `a.gif` as `checkAndUploadGif` forwards it after an upload. -/
def savedA : Gif :=
  { gifA with newURL := "https://durablewit.s3.us-west-2.amazonaws.com/0a.gif" }

/-- Item for `b.gif` as `checkAndUploadGif` forwards it when the key exists. -/
def savedB : Gif :=
  { gifB with newURL := "https://s3-us-west-2.amazonaws.com/durablewit/0a.gif" }

/-- Item for `e.gif` as `checkAndUploadGif` forwards it after an upload. -/
def savedE : Gif :=
  { gifE with newURL := "https://durablewit.s3.us-west-2.amazonaws.com/0b.gif" }

/-- A record store whose second `Exec` call fails. -/
def secondExecFails : DbFaults :=
  { queryErr := none, rowsErr := none, prepareErr := none,
    execFaults := [ExecFault.none, ExecFault.execFails (GoError.plain "database is locked")] }

/-- The sample endpoint: it answers existence checks from the objects it holds
and accepts uploads. -/
def demoS3 : S3 Objects := s3Model vhostLocation none none

/-- The run on the sample table against the empty sample bucket. -/
def firstRun : Exit × Table × Objects × List Event :=
  pipeline demoLib demoFs demoS3 "/g" "us-west-2" "durablewit" demoTable noFaults []

/-- The upload of `a.gif` under its key. -/
def uploadOfA : UploadInput :=
  { bucket := "durablewit", key := "0a.gif", body := Handle.reading [71, 73, 70, 1],
    acl := "public-read", contentType := "image/gif" }

/-- A bucket that already holds the bytes of `a.gif` under their key. -/
def bucketWithA : Objects := [(("durablewit", "0a.gif"), [71, 73, 70, 1])]

/-- Item of a record whose file name points below the regular file `a.gif`,
where no file exists, as the enumerator sends it. -/
def rawBelow : Gif :=
  { id := 8, filename := "a.gif/x", url := "http://x/x.gif", hash := "", newURL := "",
    fullfilename := "" }

/-- A location that does not contain the bucket name. -/
def cdnLocation (_ key : String) : String := "https://cdn.example.net/" ++ key

/-- An endpoint that reports locations without the bucket name. -/
def cdnS3 : S3 Objects := s3Model cdnLocation none none

/-- The run on the sample table against the empty bucket of `cdnS3`. -/
def cdnRun : Exit × Table × Objects × List Event :=
  pipeline demoLib demoFs cdnS3 "/g" "us-west-2" "durablewit" demoTable noFaults []

/-- A record store whose query fails. -/
def queryFails : DbFaults :=
  { queryErr := some (GoError.plain "database is locked"), rowsErr := none, prepareErr := none,
    execFaults := [] }

/-- The run on the sample table in which the query fails. -/
def failedRun : Exit × Table × Objects × List Event :=
  pipeline demoLib demoFs demoS3 "/g" "us-west-2" "durablewit" demoTable queryFails []

/-! ## The worker loop -/

theorem rangeLoop_cons_fatal {σ : Type} (body : Gif → σ → Step × List Event × σ)
    (gif : Gif) (rest : List Gif) (w w1 : σ) (err : GoError) (ev : List Event)
    (h : body gif w = (Step.fatal err, ev, w1)) :
    rangeLoop body (gif :: rest) w = (Exit.fatal err, [], ev, w1) := by
  simp only [rangeLoop, h]

theorem rangeLoop_cons_panic {σ : Type} (body : Gif → σ → Step × List Event × σ)
    (gif : Gif) (rest : List Gif) (w w1 : σ) (ev : List Event)
    (h : body gif w = (Step.panic, ev, w1)) :
    rangeLoop body (gif :: rest) w = (Exit.panicked, [], ev, w1) := by
  simp only [rangeLoop, h]

theorem rangeLoop_cons_skip {σ : Type} (body : Gif → σ → Step × List Event × σ)
    (gif : Gif) (rest : List Gif) (w w1 : σ) (ev : List Event)
    (h : body gif w = (Step.skip, ev, w1)) :
    rangeLoop body (gif :: rest) w =
      ((rangeLoop body rest w1).1, (rangeLoop body rest w1).2.1,
        ev ++ (rangeLoop body rest w1).2.2.1, (rangeLoop body rest w1).2.2.2) := by
  simp only [rangeLoop, h]

theorem rangeLoop_cons_forward {σ : Type} (body : Gif → σ → Step × List Event × σ)
    (gif g : Gif) (rest : List Gif) (w w1 : σ) (ev : List Event)
    (h : body gif w = (Step.forward g, ev, w1)) :
    rangeLoop body (gif :: rest) w =
      ((rangeLoop body rest w1).1, g :: (rangeLoop body rest w1).2.1,
        ev ++ (rangeLoop body rest w1).2.2.1, (rangeLoop body rest w1).2.2.2) := by
  simp only [rangeLoop, h]

/-- Every iteration ends the process, or skips, or forwards. -/
theorem step_cases {σ : Type} (r : Step × List Event × σ) :
    (∃ err, r = (Step.fatal err, r.2.1, r.2.2)) ∨ r = (Step.panic, r.2.1, r.2.2)
      ∨ r = (Step.skip, r.2.1, r.2.2) ∨ ∃ g, r = (Step.forward g, r.2.1, r.2.2) := by
  rcases r with ⟨s, ev, w⟩
  cases s with
  | forward g => exact Or.inr (Or.inr (Or.inr ⟨g, rfl⟩))
  | skip => exact Or.inr (Or.inr (Or.inl rfl))
  | fatal err => exact Or.inl ⟨err, rfl⟩
  | panic => exact Or.inr (Or.inl rfl)

/-- A loop over `l1 ++ l2` runs the loop over `l1` and, when that drains its
items, goes on with `l2`. -/
theorem rangeLoop_append {σ : Type} (body : Gif → σ → Step × List Event × σ)
    (l1 l2 : List Gif) (w : σ) :
    rangeLoop body (l1 ++ l2) w =
      if (rangeLoop body l1 w).1 = Exit.completed then
        ((rangeLoop body l2 (rangeLoop body l1 w).2.2.2).1,
          (rangeLoop body l1 w).2.1 ++ (rangeLoop body l2 (rangeLoop body l1 w).2.2.2).2.1,
          (rangeLoop body l1 w).2.2.1 ++ (rangeLoop body l2 (rangeLoop body l1 w).2.2.2).2.2.1,
          (rangeLoop body l2 (rangeLoop body l1 w).2.2.2).2.2.2)
      else rangeLoop body l1 w := by
  induction l1 generalizing w with
  | nil => simp [rangeLoop]
  | cons gif rest ih =>
    rcases step_cases (body gif w) with ⟨x, h⟩ | h | h | ⟨g, h⟩
    · rw [List.cons_append, rangeLoop_cons_fatal body gif _ w _ x _ h,
        rangeLoop_cons_fatal body gif _ w _ x _ h]
      simp
    · rw [List.cons_append, rangeLoop_cons_panic body gif _ w _ _ h,
        rangeLoop_cons_panic body gif _ w _ _ h]
      simp
    · rw [List.cons_append, rangeLoop_cons_skip body gif _ w _ _ h,
        rangeLoop_cons_skip body gif _ w _ _ h, ih]
      by_cases hc : (rangeLoop body rest (body gif w).2.2).1 = Exit.completed
      · simp [hc]
      · simp [hc]
    · rw [List.cons_append, rangeLoop_cons_forward body gif g _ w _ _ h,
        rangeLoop_cons_forward body gif g _ w _ _ h, ih]
      by_cases hc : (rangeLoop body rest (body gif w).2.2).1 = Exit.completed
      · simp [hc]
      · simp [hc]

/-! ## Dedup/upload stage: one item -/

theorem objExists_events_no_upload {σ : Type} (svc : S3 σ) (w : σ) (bucket key : String)
    (input : UploadInput) : Event.upload input ∉ (objExists svc w bucket key).2.1 := by
  unfold objExists
  rcases h : svc.headObject w bucket key with ⟨err, w1⟩
  rcases err with _ | ⟨code, message⟩ | message
  · simp
  · by_cases hc : code = "NotFound" <;> simp [hc]
  · simp

/-- The answer of `objExists` is `false` exactly on an AWS error with code
`NotFound`. -/
theorem objExists_eq_false_iff {σ : Type} (svc : S3 σ) (w : σ) (bucket key : String) :
    (objExists svc w bucket key).1 = false ↔
      ∃ message, (svc.headObject w bucket key).1 = some (GoError.aws "NotFound" message) := by
  unfold objExists
  rcases h : svc.headObject w bucket key with ⟨err, w1⟩
  rcases err with _ | ⟨code, message⟩ | message
  · simp
  · by_cases hc : code = "NotFound"
    · subst hc
      simp
    · simp [hc]
  · simp

theorem openReport_no_upload (gif : Gif) (err : Option GoError) (input : UploadInput) :
    Event.upload input ∉ openReport gif err := by
  cases err <;> simp [openReport]

theorem checkAndUploadGifItem_exists {σ : Type} (lib : Lib) (fs : FileSystem) (svc : S3 σ)
    (region bucket : String) (gif : Gif) (w w1 : σ) (ev : List Event)
    (h : objExists svc w bucket (remoteFilename lib fs gif) = (true, ev, w1)) :
    checkAndUploadGifItem lib fs svc region bucket gif w =
      (Step.forward { gif with newURL := canonicalURL region bucket (remoteFilename lib fs gif) },
        openReport gif (osOpen fs gif.fullfilename).2 ++ ev ++
          [Event.print (Line.fileExists (remoteFilename lib fs gif))], w1) := by
  simp only [checkAndUploadGifItem, h]

theorem checkAndUploadGifItem_absent {σ : Type} (lib : Lib) (fs : FileSystem) (svc : S3 σ)
    (region bucket : String) (gif : Gif) (w w1 : σ) (ev : List Event)
    (h : objExists svc w bucket (remoteFilename lib fs gif) = (false, ev, w1)) :
    checkAndUploadGifItem lib fs svc region bucket gif w =
      match uploadGif svc w1 bucket (remoteFilename lib fs gif)
          (guessImageMimeTypes lib (osOpen fs gif.fullfilename).1) (osOpen fs gif.fullfilename).1 with
      | (some location, ev2, w2) =>
        (Step.forward { gif with newURL := location },
          openReport gif (osOpen fs gif.fullfilename).2 ++ ev ++ ev2, w2)
      | (none, ev2, w2) =>
        (Step.panic, openReport gif (osOpen fs gif.fullfilename).2 ++ ev ++ ev2, w2) := by
  simp only [checkAndUploadGifItem, h]

/-- When `objExists` answers `true`, the item is forwarded with the canonical
URL of its key and no upload is made. -/
theorem checkAndUploadGifItem_of_exists {σ : Type} (lib : Lib) (fs : FileSystem) (svc : S3 σ)
    (region bucket : String) (gif : Gif) (w : σ)
    (h : (objExists svc w bucket (remoteFilename lib fs gif)).1 = true) :
    checkAndUploadGifItem lib fs svc region bucket gif w =
        (Step.forward { gif with newURL := canonicalURL region bucket (remoteFilename lib fs gif) },
          (checkAndUploadGifItem lib fs svc region bucket gif w).2.1,
          (objExists svc w bucket (remoteFilename lib fs gif)).2.2)
      ∧ ∀ input, Event.upload input ∉ (checkAndUploadGifItem lib fs svc region bucket gif w).2.1 := by
  have hno := objExists_events_no_upload svc w bucket (remoteFilename lib fs gif)
  rcases hx : objExists svc w bucket (remoteFilename lib fs gif) with ⟨b, ev, w1⟩
  rw [hx] at h hno
  simp only at h hno
  subst h
  rw [checkAndUploadGifItem_exists lib fs svc region bucket gif w w1 ev hx]
  refine ⟨rfl, ?_⟩
  intro input
  simp only [List.mem_append, List.mem_singleton, not_or]
  exact ⟨⟨openReport_no_upload _ _ _, hno input⟩, by simp⟩

/-- An iteration of `checkAndUploadGif` never skips: it forwards the item,
with its other fields as received, or the process panics. -/
theorem checkAndUploadGifItem_never_skips {σ : Type} (lib : Lib) (fs : FileSystem) (svc : S3 σ)
    (region bucket : String) (gif : Gif) (w : σ) :
    (∃ u, (checkAndUploadGifItem lib fs svc region bucket gif w).1 =
        Step.forward { gif with newURL := u })
      ∨ (checkAndUploadGifItem lib fs svc region bucket gif w).1 = Step.panic := by
  rcases hx : objExists svc w bucket (remoteFilename lib fs gif) with ⟨b, ev, w1⟩
  cases b with
  | true =>
    rw [checkAndUploadGifItem_exists lib fs svc region bucket gif w w1 ev hx]
    exact Or.inl ⟨_, rfl⟩
  | false =>
    rw [checkAndUploadGifItem_absent lib fs svc region bucket gif w w1 ev hx]
    rcases hu : uploadGif svc w1 bucket (remoteFilename lib fs gif)
        (guessImageMimeTypes lib (osOpen fs gif.fullfilename).1)
        (osOpen fs gif.fullfilename).1 with ⟨loc, ev2, w2⟩
    cases loc with
    | none => exact Or.inr rfl
    | some l => exact Or.inl ⟨l, rfl⟩

/-- An item the loop body forwards goes on `saveChan` ahead of what the rest of
`uploadChan` yields. -/
theorem checkAndUploadGif_cons_forward {σ : Type} (lib : Lib) (fs : FileSystem) (svc : S3 σ)
    (region bucket : String) (gif g : Gif) (rest : List Gif) (w : σ)
    (hsession : svc.newSession = none)
    (h : (checkAndUploadGifItem lib fs svc region bucket gif w).1 = Step.forward g) :
    (checkAndUploadGif lib fs svc region bucket (gif :: rest) w).2.1 =
      g :: (checkAndUploadGif lib fs svc region bucket rest
        (checkAndUploadGifItem lib fs svc region bucket gif w).2.2).2.1 := by
  have heq : checkAndUploadGifItem lib fs svc region bucket gif w =
      (Step.forward g, (checkAndUploadGifItem lib fs svc region bucket gif w).2.1,
        (checkAndUploadGifItem lib fs svc region bucket gif w).2.2) := by
    rw [← h]
  simp only [checkAndUploadGif, hsession]
  rw [rangeLoop_cons_forward _ gif g rest w _ _ heq]

/-! ## Claims on the dedup/upload stage -/

/-- C3: for every work item, if the existence check reports that an object
already exists under the item's key, `checkAndUploadGif` makes no upload call,
sets `newURL` to exactly
`"https://s3-" + region + ".amazonaws.com/" + bucket + "/" + key`, and sends the
item on `saveChan`, ahead of what the rest of the channel yields. -/
theorem checkAndUploadGif_existing_key {σ : Type} (lib : Lib) (fs : FileSystem) (svc : S3 σ)
    (region bucket : String) (gif : Gif) (rest : List Gif) (w : σ)
    (hsession : svc.newSession = none)
    (h : (objExists svc w bucket (remoteFilename lib fs gif)).1 = true) :
    (checkAndUploadGifItem lib fs svc region bucket gif w).1 =
        Step.forward { gif with
          newURL := "https://s3-" ++ region ++ ".amazonaws.com/" ++ bucket ++ "/" ++
            remoteFilename lib fs gif }
      ∧ (∀ input, Event.upload input ∉ (checkAndUploadGifItem lib fs svc region bucket gif w).2.1)
      ∧ (checkAndUploadGif lib fs svc region bucket (gif :: rest) w).2.1 =
          { gif with
            newURL := "https://s3-" ++ region ++ ".amazonaws.com/" ++ bucket ++ "/" ++
              remoteFilename lib fs gif } ::
          (checkAndUploadGif lib fs svc region bucket rest
            (checkAndUploadGifItem lib fs svc region bucket gif w).2.2).2.1 := by
  obtain ⟨heq, hno⟩ := checkAndUploadGifItem_of_exists lib fs svc region bucket gif w h
  have h1 : (checkAndUploadGifItem lib fs svc region bucket gif w).1 =
      Step.forward { gif with
        newURL := "https://s3-" ++ region ++ ".amazonaws.com/" ++ bucket ++ "/" ++
          remoteFilename lib fs gif } := by
    rw [heq]
    rfl
  exact ⟨h1, hno,
    checkAndUploadGif_cons_forward lib fs svc region bucket gif _ rest w hsession h1⟩

/-- Instance of C3: with `0a.gif` already in the bucket, item `a.gif` is
forwarded with the canonical URL, the upload of `a.gif` is not made, and the
item is what the worker sends on `saveChan`. -/
theorem checkAndUploadGif_existing_key_witness :
    (checkAndUploadGifItem demoLib demoFs demoS3 "us-west-2" "durablewit" gifA bucketWithA).1 =
      Step.forward { gifA with
        newURL := "https://s3-us-west-2.amazonaws.com/durablewit/0a.gif" }
    ∧ Event.upload uploadOfA ∉
        (checkAndUploadGifItem demoLib demoFs demoS3 "us-west-2" "durablewit" gifA
          bucketWithA).2.1
    ∧ (checkAndUploadGif demoLib demoFs demoS3 "us-west-2" "durablewit" [gifA]
          bucketWithA).2.1 =
        [{ gifA with newURL := "https://s3-us-west-2.amazonaws.com/durablewit/0a.gif" }] :=
  have h := checkAndUploadGif_existing_key demoLib demoFs demoS3 "us-west-2" "durablewit" gifA []
    bucketWithA rfl (by decide)
  ⟨h.1, h.2.1 uploadOfA, h.2.2⟩

/-- C10: `objExists` returns false if and only if `HeadObject` fails with
an AWS error whose code is `NotFound`; on every other outcome (success, another
AWS error code, an error that is not an AWS error) it returns true, and
`checkAndUploadGif` then makes no upload and sends the item on `saveChan` with
the canonical URL built from region, bucket and key. -/
theorem objExists_false_iff_notFound {σ : Type} (svc : S3 σ) (w : σ) (bucket : String) :
    (∀ key, (objExists svc w bucket key).1 = false ↔
        ∃ message, (svc.headObject w bucket key).1 = some (GoError.aws "NotFound" message))
      ∧ ∀ (lib : Lib) (fs : FileSystem) (region : String) (gif : Gif),
          (¬ ∃ message, (svc.headObject w bucket (remoteFilename lib fs gif)).1 =
              some (GoError.aws "NotFound" message)) →
          (objExists svc w bucket (remoteFilename lib fs gif)).1 = true
            ∧ (checkAndUploadGifItem lib fs svc region bucket gif w).1 =
                Step.forward { gif with
                  newURL := canonicalURL region bucket (remoteFilename lib fs gif) }
            ∧ (∀ input,
                Event.upload input ∉ (checkAndUploadGifItem lib fs svc region bucket gif w).2.1)
            ∧ ∀ rest : List Gif, svc.newSession = none →
                (checkAndUploadGif lib fs svc region bucket (gif :: rest) w).2.1 =
                  { gif with newURL := canonicalURL region bucket (remoteFilename lib fs gif) } ::
                  (checkAndUploadGif lib fs svc region bucket rest
                    (checkAndUploadGifItem lib fs svc region bucket gif w).2.2).2.1 := by
  refine ⟨fun key => objExists_eq_false_iff svc w bucket key, ?_⟩
  intro lib fs region gif hnot
  have htrue : (objExists svc w bucket (remoteFilename lib fs gif)).1 = true := by
    rw [← Bool.not_eq_false, objExists_eq_false_iff]
    exact hnot
  obtain ⟨heq, hno⟩ := checkAndUploadGifItem_of_exists lib fs svc region bucket gif w htrue
  have h1 : (checkAndUploadGifItem lib fs svc region bucket gif w).1 =
      Step.forward { gif with
        newURL := canonicalURL region bucket (remoteFilename lib fs gif) } := by
    rw [heq]
  exact ⟨htrue, h1, hno, fun rest hsession =>
    checkAndUploadGif_cons_forward lib fs svc region bucket gif _ rest w hsession h1⟩

/-- Instance of C10: `HeadObject` fails with a transport error on an empty
bucket; `objExists` answers true, the upload of `a.gif` is not made, and the
item is sent on with the canonical URL. -/
theorem objExists_false_iff_notFound_witness :
    (objExists (s3Model vhostLocation (some (GoError.plain "dial tcp: i/o timeout")) none) []
        "durablewit" (remoteFilename demoLib demoFs gifA)).1 = true
      ∧ (checkAndUploadGifItem demoLib demoFs
          (s3Model vhostLocation (some (GoError.plain "dial tcp: i/o timeout")) none)
          "us-west-2" "durablewit" gifA []).1 =
        Step.forward { gifA with
          newURL := canonicalURL "us-west-2" "durablewit" (remoteFilename demoLib demoFs gifA) }
      ∧ Event.upload uploadOfA ∉
          (checkAndUploadGifItem demoLib demoFs
            (s3Model vhostLocation (some (GoError.plain "dial tcp: i/o timeout")) none)
            "us-west-2" "durablewit" gifA []).2.1 :=
  have h := (objExists_false_iff_notFound
    (s3Model vhostLocation (some (GoError.plain "dial tcp: i/o timeout")) none) []
    "durablewit").2 demoLib demoFs "us-west-2" gifA
    (by rintro ⟨message, hm⟩; simp [s3Model] at hm)
  ⟨h.1, h.2.1, h.2.2.1 uploadOfA⟩

/-- C6, the code at a failing upload: `HeadObject` answers `NotFound`,
`Upload` returns a nil result and an error. The worker prints the failure,
dereferences the nil result and panics: nothing is sent on `saveChan`, the next
item `e.gif` is never looked at, and the run as a whole ends in the panic with
the table as it was. Whatever `Upload` returns, an iteration either sends its
item on or panics: no item is dropped with the loop going on. -/
theorem uploadGif_failure_panics :
    checkAndUploadGif demoLib demoFs
        (s3Model vhostLocation none (some (GoError.aws "RequestError" "send request failed")))
        "us-west-2" "durablewit" [gifA, gifE] [] =
      (Exit.panicked, [],
        [Event.headObject "durablewit" "0a.gif",
         Event.upload { bucket := "durablewit", key := "0a.gif",
                        body := Handle.reading [71, 73, 70, 1], acl := "public-read",
                        contentType := "image/gif" },
         Event.print (Line.failedToUpload (GoError.aws "RequestError" "send request failed"))],
        [])
    ∧ (pipeline demoLib demoFs
        (s3Model vhostLocation none (some (GoError.aws "RequestError" "send request failed")))
        "/g" "us-west-2" "durablewit" demoTable noFaults []).1 = Exit.panicked
    ∧ (pipeline demoLib demoFs
        (s3Model vhostLocation none (some (GoError.aws "RequestError" "send request failed")))
        "/g" "us-west-2" "durablewit" demoTable noFaults []).2.1 = demoTable
    ∧ ∀ (σ : Type) (lib : Lib) (fs : FileSystem) (svc : S3 σ) (region bucket : String)
        (gif : Gif) (w : σ),
        (∃ u, (checkAndUploadGifItem lib fs svc region bucket gif w).1 =
            Step.forward { gif with newURL := u })
          ∨ (checkAndUploadGifItem lib fs svc region bucket gif w).1 = Step.panic :=
  ⟨rfl, rfl, rfl, fun _ lib fs svc region bucket gif w =>
    checkAndUploadGifItem_never_skips lib fs svc region bucket gif w⟩

/-- C7, the code at a file that cannot be opened: the worker prints the
failure and goes on with a nil file. The key becomes `hash + "."`; when the
existence check answers true the item is sent on `saveChan` with the canonical
URL of that key and the writer stores it in the record; when it answers
`NotFound` the upload is attempted with the nil file, fails, and the worker
panics. Whether or not the file opens, an iteration either sends its item on or
panics. -/
theorem checkAndUploadGif_open_failure_not_dropped :
    checkAndUploadGif demoLib demoFs
        (s3Model vhostLocation (some (GoError.aws "Forbidden" "Forbidden")) none)
        "us-west-2" "durablewit" [gifGone] [] =
      (Exit.completed,
        [{ gifGone with newURL := "https://s3-us-west-2.amazonaws.com/durablewit/0a." }],
        [Event.print (Line.failedToOpen "gone.gif" (GoError.plain "no such file or directory")),
         Event.headObject "durablewit" "0a.",
         Event.print (Line.error (GoError.aws "Forbidden" "Forbidden")),
         Event.print (Line.fileExists "0a.")],
        [])
    ∧ (writeNewURLToGifWit demoTable noFaults
        [{ gifGone with newURL := "https://s3-us-west-2.amazonaws.com/durablewit/0a." }]).2.2 =
      sqlUpdate demoTable "https://s3-us-west-2.amazonaws.com/durablewit/0a." 3
    ∧ (checkAndUploadGif demoLib demoFs (s3Model vhostLocation none none)
        "us-west-2" "durablewit" [gifGone, gifE] []).1 = Exit.panicked
    ∧ (checkAndUploadGif demoLib demoFs (s3Model vhostLocation none none)
        "us-west-2" "durablewit" [gifGone, gifE] []).2.1 = []
    ∧ ∀ (σ : Type) (lib : Lib) (fs : FileSystem) (svc : S3 σ) (region bucket : String)
        (gif : Gif) (w : σ),
        (∃ u, (checkAndUploadGifItem lib fs svc region bucket gif w).1 =
            Step.forward { gif with newURL := u })
          ∨ (checkAndUploadGifItem lib fs svc region bucket gif w).1 = Step.panic :=
  ⟨rfl, rfl, rfl, rfl, fun _ lib fs svc region bucket gif w =>
    checkAndUploadGifItem_never_skips lib fs svc region bucket gif w⟩

/-! ## Fingerprint stage -/

theorem hashGifsItem_absent (lib : Lib) (fs : FileSystem) (dir : String) (gif : Gif) (w : Unit)
    (h : fs (lib.filepathJoin dir gif.filename) = File.absent) :
    hashGifsItem lib fs dir gif w =
      (Step.skip, [Event.print (Line.gotFromHashChan gif.filename)], w) := by
  simp [hashGifsItem, Exists, h]

theorem hashGifsItem_bytes (lib : Lib) (fs : FileSystem) (dir : String) (gif : Gif) (w : Unit)
    (d : List Nat) (h : fs (lib.filepathJoin dir gif.filename) = File.bytes d) :
    hashGifsItem lib fs dir gif w =
      (Step.forward { gif with hash := lib.md5Hex d,
                               fullfilename := lib.filepathJoin dir gif.filename },
        [Event.print (Line.gotFromHashChan gif.filename),
         Event.print (Line.placingOnUploadChan
           { gif with hash := lib.md5Hex d,
                      fullfilename := lib.filepathJoin dir gif.filename })], w) := by
  simp [hashGifsItem, Exists, hashFiles, osOpen, h]

theorem hashGifs_eq (lib : Lib) (fs : FileSystem) (dir : String) (l : List Gif) :
    hashGifs lib fs dir l =
      ((rangeLoop (hashGifsItem lib fs dir) l ()).1, (rangeLoop (hashGifsItem lib fs dir) l ()).2.1,
        (rangeLoop (hashGifsItem lib fs dir) l ()).2.2.1) := rfl

/-- When no file of the input fails to hash, the loop of `hashGifs` drains its
input. -/
theorem hashLoop_completed (lib : Lib) (fs : FileSystem) (dir : String) (l : List Gif)
    (h : ∀ g ∈ l, fs (lib.filepathJoin dir g.filename) = File.absent
        ∨ ∃ d, fs (lib.filepathJoin dir g.filename) = File.bytes d) :
    (rangeLoop (hashGifsItem lib fs dir) l ()).1 = Exit.completed := by
  induction l with
  | nil => rfl
  | cons g rest ih =>
    have hrest := ih (fun x hx => h x (List.mem_cons_of_mem _ hx))
    rcases h g (List.mem_cons_self _ _) with hg | ⟨d, hg⟩
    · rw [rangeLoop_cons_skip _ g rest () () _ (hashGifsItem_absent lib fs dir g () hg)]
      exact hrest
    · rw [rangeLoop_cons_forward _ g _ rest () () _ (hashGifsItem_bytes lib fs dir g () d hg)]
      exact hrest

/-! ## The key of an item -/

theorem remoteFilename_of_bytes (lib : Lib) (fs : FileSystem) (gif : Gif) (d : List Nat)
    (h : fs gif.fullfilename = File.bytes d) :
    remoteFilename lib fs gif =
      gif.hash ++ "." ++ (guessImageFormat lib (Handle.reading d)).1 := by
  simp [remoteFilename, osOpen, h]

/-- When `objExists` answers false and `Upload` returns a result, the item is
forwarded with the location of that result. -/
theorem checkAndUploadGifItem_of_upload {σ : Type} (lib : Lib) (fs : FileSystem) (svc : S3 σ)
    (region bucket : String) (gif : Gif) (w : σ) (out : UploadOutput)
    (h : (objExists svc w bucket (remoteFilename lib fs gif)).1 = false)
    (hu : (svc.upload (objExists svc w bucket (remoteFilename lib fs gif)).2.2
        { bucket := bucket, key := remoteFilename lib fs gif,
          body := (osOpen fs gif.fullfilename).1, acl := "public-read",
          contentType := guessImageMimeTypes lib (osOpen fs gif.fullfilename).1 }).1.result
        = some out) :
    (checkAndUploadGifItem lib fs svc region bucket gif w).1 =
      Step.forward { gif with newURL := out.location } := by
  rcases hx : objExists svc w bucket (remoteFilename lib fs gif) with ⟨b, ev, w1⟩
  rw [hx] at h hu
  simp only at h hu
  subst h
  rw [checkAndUploadGifItem_absent lib fs svc region bucket gif w w1 ev hx]
  simp only [uploadGif, hu]

/-- C2, as amended: for every two work items whose local files have
identical bytes, whatever their ids, names and original URLs, `hashGifs`
forwards both and `checkAndUploadGif` derives the same key for both, the hex
MD5 of the bytes joined by `.` to the sniffed format: the key depends on the
content only. When the existence check reports the key as existing for both,
both get the same `newURL`, the canonical URL of the key. An item that is
uploaded gets the location that `Upload` returns. -/
theorem identical_files_same_key (lib : Lib) (fs : FileSystem) (dir : String) (g1 g2 : Gif)
    (d : List Nat)
    (h1 : fs (lib.filepathJoin dir g1.filename) = File.bytes d)
    (h2 : fs (lib.filepathJoin dir g2.filename) = File.bytes d) :
    ∃ k1 k2 : Gif,
      (hashGifsItem lib fs dir g1 ()).1 = Step.forward k1
      ∧ (hashGifsItem lib fs dir g2 ()).1 = Step.forward k2
      ∧ remoteFilename lib fs k1 =
          lib.md5Hex d ++ "." ++ (guessImageFormat lib (Handle.reading d)).1
      ∧ remoteFilename lib fs k2 = remoteFilename lib fs k1
      ∧ (∀ (σ : Type) (svc : S3 σ) (region bucket : String) (w1 w2 : σ),
          (objExists svc w1 bucket (remoteFilename lib fs k1)).1 = true →
          (objExists svc w2 bucket (remoteFilename lib fs k2)).1 = true →
          (checkAndUploadGifItem lib fs svc region bucket k1 w1).1 =
              Step.forward { k1 with
                newURL := canonicalURL region bucket (remoteFilename lib fs k1) }
            ∧ (checkAndUploadGifItem lib fs svc region bucket k2 w2).1 =
              Step.forward { k2 with
                newURL := canonicalURL region bucket (remoteFilename lib fs k1) })
      ∧ ∀ (σ : Type) (svc : S3 σ) (region bucket : String) (w : σ) (out : UploadOutput),
          (objExists svc w bucket (remoteFilename lib fs k1)).1 = false →
          (svc.upload (objExists svc w bucket (remoteFilename lib fs k1)).2.2
              { bucket := bucket, key := remoteFilename lib fs k1,
                body := (osOpen fs k1.fullfilename).1, acl := "public-read",
                contentType := guessImageMimeTypes lib (osOpen fs k1.fullfilename).1 }).1.result
            = some out →
          (checkAndUploadGifItem lib fs svc region bucket k1 w).1 =
            Step.forward { k1 with newURL := out.location } := by
  refine ⟨{ g1 with hash := lib.md5Hex d, fullfilename := lib.filepathJoin dir g1.filename },
    { g2 with hash := lib.md5Hex d, fullfilename := lib.filepathJoin dir g2.filename },
    by rw [hashGifsItem_bytes lib fs dir g1 () d h1],
    by rw [hashGifsItem_bytes lib fs dir g2 () d h2], ?_, ?_, ?_, ?_⟩
  · exact remoteFilename_of_bytes lib fs _ d h1
  · rw [remoteFilename_of_bytes lib fs _ d h2, remoteFilename_of_bytes lib fs _ d h1]
  · intro σ svc region bucket w1 w2 e1 e2
    have hk : remoteFilename lib fs
        { g2 with hash := lib.md5Hex d, fullfilename := lib.filepathJoin dir g2.filename } =
        remoteFilename lib fs
        { g1 with hash := lib.md5Hex d, fullfilename := lib.filepathJoin dir g1.filename } := by
      rw [remoteFilename_of_bytes lib fs _ d h2, remoteFilename_of_bytes lib fs _ d h1]
    refine ⟨by rw [(checkAndUploadGifItem_of_exists lib fs svc region bucket _ w1 e1).1], ?_⟩
    rw [(checkAndUploadGifItem_of_exists lib fs svc region bucket _ w2 e2).1, hk]
  · intro σ svc region bucket w out e hu
    exact checkAndUploadGifItem_of_upload lib fs svc region bucket _ w out e hu

/-- Instance of C2: `a.gif` and `b.gif` hold the same bytes; both items get
the key `0a.gif`, and against a bucket that holds this key both get its
canonical URL. -/
theorem identical_files_same_key_witness :
    ∃ k1 k2 : Gif,
      (hashGifsItem demoLib demoFs "/g" rawA ()).1 = Step.forward k1
      ∧ (hashGifsItem demoLib demoFs "/g" rawB ()).1 = Step.forward k2
      ∧ remoteFilename demoLib demoFs k1 = "0a.gif"
      ∧ remoteFilename demoLib demoFs k2 = remoteFilename demoLib demoFs k1
      ∧ (checkAndUploadGifItem demoLib demoFs demoS3 "us-west-2" "durablewit" k1 bucketWithA).1 =
          Step.forward { k1 with
            newURL := canonicalURL "us-west-2" "durablewit" (remoteFilename demoLib demoFs k1) }
      ∧ (checkAndUploadGifItem demoLib demoFs demoS3 "us-west-2" "durablewit" k2 bucketWithA).1 =
          Step.forward { k2 with
            newURL := canonicalURL "us-west-2" "durablewit" (remoteFilename demoLib demoFs k1) } := by
  obtain ⟨k1, k2, a, b, c, e, f, _⟩ :=
    identical_files_same_key demoLib demoFs "/g" rawA rawB [71, 73, 70, 1] rfl rfl
  have hc : remoteFilename demoLib demoFs k1 = "0a.gif" := c
  have h1 : (objExists demoS3 bucketWithA "durablewit" (remoteFilename demoLib demoFs k1)).1
      = true := by
    rw [hc]
    decide
  have h2 : (objExists demoS3 bucketWithA "durablewit" (remoteFilename demoLib demoFs k2)).1
      = true := by
    rw [e, hc]
    decide
  obtain ⟨f1, f2⟩ := f Objects demoS3 "us-west-2" "durablewit" bucketWithA bucketWithA h1 h2
  exact ⟨k1, k2, a, b, c, e, f1, f2⟩

/-- C2 as stated fails: `a.gif` and `b.gif` hold the same bytes and are
handled in the same run against the same bucket and region; the first is
uploaded and gets the location the uploader reports, the second finds the key
present and gets the canonical URL, a different string. -/
theorem identical_files_different_newURL :
    demoFs gifA.fullfilename = demoFs gifB.fullfilename
      ∧ (checkAndUploadGif demoLib demoFs (s3Model vhostLocation none none) "us-west-2"
          "durablewit" [gifA, gifB] []).2.1 =
        [{ gifA with newURL := "https://durablewit.s3.us-west-2.amazonaws.com/0a.gif" },
         { gifB with newURL := "https://s3-us-west-2.amazonaws.com/durablewit/0a.gif" }]
      ∧ "https://durablewit.s3.us-west-2.amazonaws.com/0a.gif" ≠
        "https://s3-us-west-2.amazonaws.com/durablewit/0a.gif" := by
  refine ⟨rfl, rfl, ?_⟩
  decide

/-! ## Persistence writer -/

theorem execCalls_append (a b : List Event) :
    execCalls (a ++ b) = execCalls a ++ execCalls b := by
  simp [execCalls, List.filterMap_append]

theorem applyUpdates_append (table : Table) (a b : List Gif) :
    applyUpdates table (a ++ b) = applyUpdates (applyUpdates table a) b := by
  simp [applyUpdates, List.foldl_append]

theorem writeItem_ok (gif : Gif) (table : Table) (fl : List ExecFault)
    (h : fl.headD ExecFault.none = ExecFault.none) :
    writeItem gif (table, fl) =
      (Step.skip,
        [Event.exec gif.newURL gif.id, Event.print (Line.affected (rowsAffected table gif.id))],
        (sqlUpdate table gif.newURL gif.id, fl.tail)) := by
  simp only [writeItem, h]

/-- While the `Exec` calls succeed, the loop of the writer executes one update
per item, in order. -/
theorem writeLoop_ok (items : List Gif) (table : Table) (fl : List ExecFault)
    (h : ∀ f ∈ fl.take items.length, f = ExecFault.none) :
    (rangeLoop writeItem items (table, fl)).1 = Exit.completed
      ∧ execCalls (rangeLoop writeItem items (table, fl)).2.2.1 =
          items.map (fun g => (g.newURL, g.id))
      ∧ (rangeLoop writeItem items (table, fl)).2.2.2 =
          (applyUpdates table items, fl.drop items.length) := by
  induction items generalizing table fl with
  | nil => simp [rangeLoop, execCalls, applyUpdates]
  | cons g rest ih =>
    have hhead : fl.headD ExecFault.none = ExecFault.none := by
      cases fl with
      | nil => rfl
      | cons f fs => exact h f (by simp)
    have htail : ∀ f ∈ fl.tail.take rest.length, f = ExecFault.none := by
      cases fl with
      | nil => simp
      | cons f fs =>
        intro x hx
        have hx2 : x ∈ List.take rest.length fs := hx
        exact h x (by simp [hx2])
    obtain ⟨h1, h2, h3⟩ := ih (sqlUpdate table g.newURL g.id) fl.tail htail
    rw [rangeLoop_cons_skip _ g rest _ _ _ (writeItem_ok g table fl hhead)]
    refine ⟨h1, ?_, ?_⟩
    · simp only [execCalls_append, h2]
      simp [execCalls]
    · simp only [h3]
      simp [applyUpdates]

theorem sqlUpdate_length (table : Table) (newURL : String) (id : Int) :
    (sqlUpdate table newURL id).length = table.length := by
  simp [sqlUpdate]

/-- C8: for every sequence of work items received by the writer (once the
statement is prepared), `writeNewURLToGifWit` executes the updates one at a
time in queue order, the update of an item being
`UPDATE ZIMAGE SET ZURL=newURL WHERE Z_PK=id`, which changes column `ZURL` of
the rows with that key and nothing else. While no call fails, every item is
written and the writer completes. If the update of the N-th item fails, in
`Exec` or in `RowsAffected`, the run ends in `log.Fatal` with that error, the
`Exec` calls made are those of the first N items and of no later item, and the
first N-1 updates remain applied (with the N-th when only `RowsAffected`
failed). -/
theorem writeNewURLToGifWit_in_order (table : Table) (faults : DbFaults) (saveChan : List Gif)
    (hprep : faults.prepareErr = none) :
    ((∀ f ∈ faults.execFaults.take saveChan.length, f = ExecFault.none) →
        (writeNewURLToGifWit table faults saveChan).1 = Exit.completed
          ∧ execCalls (writeNewURLToGifWit table faults saveChan).2.1 =
              saveChan.map (fun g => (g.newURL, g.id))
          ∧ (writeNewURLToGifWit table faults saveChan).2.2 = applyUpdates table saveChan)
      ∧ (∀ (done later : List Gif) (gif : Gif) (rest : List ExecFault) (err : GoError),
          saveChan = done ++ gif :: later →
          (faults.execFaults = List.replicate done.length ExecFault.none
                ++ ExecFault.execFails err :: rest →
            (writeNewURLToGifWit table faults saveChan).1 = Exit.fatal err
              ∧ execCalls (writeNewURLToGifWit table faults saveChan).2.1 =
                  (done ++ [gif]).map (fun g => (g.newURL, g.id))
              ∧ (writeNewURLToGifWit table faults saveChan).2.2 = applyUpdates table done)
          ∧ (faults.execFaults = List.replicate done.length ExecFault.none
                ++ ExecFault.rowsAffectedFails err :: rest →
            (writeNewURLToGifWit table faults saveChan).1 = Exit.fatal err
              ∧ execCalls (writeNewURLToGifWit table faults saveChan).2.1 =
                  (done ++ [gif]).map (fun g => (g.newURL, g.id))
              ∧ (writeNewURLToGifWit table faults saveChan).2.2 =
                  applyUpdates table (done ++ [gif])))
      ∧ ∀ (t : Table) (newURL : String) (id : Int),
          (sqlUpdate t newURL id).length = t.length
            ∧ ∀ (n : Nat) (r : Row), t[n]? = some r →
                (r.Z_PK = id → (sqlUpdate t newURL id)[n]? = some { r with ZURL := some newURL })
                  ∧ (r.Z_PK ≠ id → (sqlUpdate t newURL id)[n]? = some r) := by
  have hw : ∀ items : List Gif, writeNewURLToGifWit table faults items =
      ((rangeLoop writeItem items (table, faults.execFaults)).1,
        Event.prepare :: (rangeLoop writeItem items (table, faults.execFaults)).2.2.1,
        (rangeLoop writeItem items (table, faults.execFaults)).2.2.2.1) := by
    intro items
    simp only [writeNewURLToGifWit, hprep]
  have hprepCalls : ∀ ev : List Event, execCalls (Event.prepare :: ev) = execCalls ev := by
    intro ev
    simp [execCalls]
  refine ⟨?_, ?_, ?_⟩
  · intro hok
    obtain ⟨h1, h2, h3⟩ := writeLoop_ok saveChan table faults.execFaults hok
    rw [hw]
    exact ⟨h1, by rw [hprepCalls]; exact h2, by rw [h3]⟩
  · intro done later gif rest err hsplit
    have hdone : ∀ fl : List ExecFault,
        ∀ f ∈ (List.replicate done.length ExecFault.none ++ fl).take done.length,
          f = ExecFault.none := by
      intro fl f hf
      rw [List.take_left' (List.length_replicate _ _)] at hf
      exact List.eq_of_mem_replicate hf
    have hdrop : ∀ fl : List ExecFault,
        (List.replicate done.length ExecFault.none ++ fl).drop done.length = fl := by
      intro fl
      exact List.drop_left' (List.length_replicate _ _)
    constructor
    · intro hf
      obtain ⟨h1, h2, h3⟩ := writeLoop_ok done table _ (hdone (ExecFault.execFails err :: rest))
      rw [hdrop] at h3
      have hstep : writeItem gif (applyUpdates table done, ExecFault.execFails err :: rest) =
          (Step.fatal err, [Event.exec gif.newURL gif.id], (applyUpdates table done, rest)) := rfl
      rw [hw, hsplit, hf, rangeLoop_append, if_pos h1, h3,
        rangeLoop_cons_fatal _ gif later _ _ err _ hstep]
      refine ⟨rfl, ?_, rfl⟩
      rw [hprepCalls]
      simp only [execCalls_append, h2, List.map_append]
      simp [execCalls]
    · intro hf
      obtain ⟨h1, h2, h3⟩ :=
        writeLoop_ok done table _ (hdone (ExecFault.rowsAffectedFails err :: rest))
      rw [hdrop] at h3
      have hstep : writeItem gif (applyUpdates table done, ExecFault.rowsAffectedFails err :: rest) =
          (Step.fatal err, [Event.exec gif.newURL gif.id],
            (sqlUpdate (applyUpdates table done) gif.newURL gif.id, rest)) := rfl
      rw [hw, hsplit, hf, rangeLoop_append, if_pos h1, h3,
        rangeLoop_cons_fatal _ gif later _ _ err _ hstep]
      refine ⟨rfl, ?_, ?_⟩
      · rw [hprepCalls]
        simp only [execCalls_append, h2, List.map_append]
        simp [execCalls]
      · simp [applyUpdates_append, applyUpdates]
  · intro t newURL id
    refine ⟨sqlUpdate_length t newURL id, ?_⟩
    intro n r hr
    constructor
    · intro hid
      simp [sqlUpdate, List.getElem?_map, hr, hid]
    · intro hid
      simp [sqlUpdate, List.getElem?_map, hr, hid]

/-- Instance of C8: the second of three updates fails in `Exec`; the run is
fatal, the calls made are those of the first two items, and only the first
update is applied. -/
theorem writeNewURLToGifWit_in_order_witness :
    (writeNewURLToGifWit demoTable secondExecFails [savedA, savedB, savedE]).1 =
        Exit.fatal (GoError.plain "database is locked")
      ∧ execCalls (writeNewURLToGifWit demoTable secondExecFails [savedA, savedB, savedE]).2.1 =
          [savedA, savedB].map (fun g => (g.newURL, g.id))
      ∧ (writeNewURLToGifWit demoTable secondExecFails [savedA, savedB, savedE]).2.2 =
          applyUpdates demoTable [savedA] :=
  ((writeNewURLToGifWit_in_order demoTable secondExecFails [savedA, savedB, savedE] rfl).2.1
    [savedA] [savedE] savedB [] (GoError.plain "database is locked") rfl).1 rfl

/-! ## The enumerator's filter -/

theorem likeAny_of_self (k : List Char → Bool) (s : List Char) (h : k s = true) :
    likeAny k s = true := by
  cases s with
  | nil => simpa [likeAny] using h
  | cons c cs => simp [likeAny, h]

theorem likeAny_of_suffix (k : List Char → Bool) (s1 s2 : List Char) (h : k s2 = true) :
    likeAny k (s1 ++ s2) = true := by
  induction s1 with
  | nil => exact likeAny_of_self k s2 h
  | cons c cs ih => simp [likeAny, ih]

/-- A pattern followed by `%` matches every text that starts with the
pattern's own characters. -/
theorem sqlLike_self_then_any (b post : List Char) :
    sqlLike (b ++ ['%']) (b ++ post) = true := by
  induction b with
  | nil =>
    have h : likeAny (sqlLike []) (post ++ []) = true :=
      likeAny_of_suffix (sqlLike []) post [] (by simp [sqlLike])
    simpa [sqlLike] using h
  | cons c cs ih =>
    by_cases hc : c = '%'
    · subst hc
      have h : likeAny (sqlLike (cs ++ ['%'])) ([] ++ (cs ++ post)) = true :=
        likeAny_of_suffix _ [] _ ih
      simp only [List.nil_append] at h
      simp [sqlLike, likeAny, h]
    · simp [sqlLike, hc, ih]

/-- A text that contains the bucket name matches `'%' + bucket + '%'`. -/
theorem sqlLike_of_contains (bucket u : String) (h : List.IsInfix bucket.data u.data) :
    sqlLike ("%" ++ bucket ++ "%").data u.data = true := by
  obtain ⟨s, t, hst⟩ := h
  have hp : ("%" ++ bucket ++ "%").data = '%' :: (bucket.data ++ ['%']) := by
    simp [String.data_append]
  rw [hp, ← hst, List.append_assoc]
  simp only [sqlLike, if_true]
  exact likeAny_of_suffix _ s _ (sqlLike_self_then_any bucket.data t)

/-- The URL `checkAndUploadGif` builds contains the bucket name. -/
theorem canonicalURL_contains_bucket (region bucket key : String) :
    List.IsInfix bucket.data (canonicalURL region bucket key).data := by
  refine ⟨("https://s3-" ++ region ++ ".amazonaws.com/").data, ("/" ++ key).data, ?_⟩
  simp [canonicalURL, String.data_append]

/-! ## The stages of a run -/

theorem rangeLoop_events {σ : Type} (body : Gif → σ → Step × List Event × σ) (p : Event → Prop)
    (hbody : ∀ g w, ∀ e ∈ (body g w).2.1, p e) (l : List Gif) (w : σ) :
    ∀ e ∈ (rangeLoop body l w).2.2.1, p e := by
  induction l generalizing w with
  | nil => simp [rangeLoop]
  | cons g rest ih =>
    have hg := hbody g w
    rcases step_cases (body g w) with ⟨x, h⟩ | h | h | ⟨k, h⟩
    · rw [rangeLoop_cons_fatal body g rest w _ x _ h]
      exact hg
    · rw [rangeLoop_cons_panic body g rest w _ _ h]
      exact hg
    · rw [rangeLoop_cons_skip body g rest w _ _ h]
      intro e he
      rcases List.mem_append.mp he with he | he
      · exact hg e he
      · exact ih _ e he
    · rw [rangeLoop_cons_forward body g k rest w _ _ h]
      intro e he
      rcases List.mem_append.mp he with he | he
      · exact hg e he
      · exact ih _ e he

theorem scanRows_cons_some (r : Row) (rest : List Row) (f u : String)
    (hf : r.ZCACHE_FILE = some f) (hu : r.ZURL = some u) :
    scanRows (r :: rest) =
      ((scanRows rest).1,
        { id := r.Z_PK, filename := f, url := u, hash := "", newURL := "", fullfilename := "" }
          :: (scanRows rest).2.1,
        Event.print (Line.placingOnHashChan f) :: (scanRows rest).2.2) := by
  simp only [scanRows, hf, hu]

theorem scanRows_cons_null (r : Row) (rest : List Row)
    (h : r.ZCACHE_FILE = none ∨ r.ZURL = none) :
    scanRows (r :: rest) =
      (Exit.fatal (GoError.plain "converting NULL to string is unsupported"), [], []) := by
  rcases hf : r.ZCACHE_FILE with _ | f <;> rcases hu : r.ZURL with _ | u
  · simp only [scanRows, hf, hu]
  · simp only [scanRows, hf, hu]
  · simp only [scanRows, hf, hu]
  · rcases h with h | h
    · rw [hf] at h; cases h
    · rw [hu] at h; cases h

theorem scanRows_completed (rows : List Row) (h : (scanRows rows).1 = Exit.completed) :
    (scanRows rows).2.1 = rows.map rowGif := by
  induction rows with
  | nil => rfl
  | cons r rest ih =>
    rcases hf : r.ZCACHE_FILE with _ | f
    · rw [scanRows_cons_null r rest (Or.inl hf)] at h
      cases h
    · rcases hu : r.ZURL with _ | u
      · rw [scanRows_cons_null r rest (Or.inr hu)] at h
        cases h
      · rw [scanRows_cons_some r rest f u hf hu] at h ⊢
        simp only at h ⊢
        rw [ih h]
        simp [rowGif, hf, hu]

theorem scanRows_completed_files (rows : List Row) (h : (scanRows rows).1 = Exit.completed) :
    ∀ r ∈ rows, ∃ f, r.ZCACHE_FILE = some f := by
  induction rows with
  | nil => simp
  | cons r rest ih =>
    rcases hf : r.ZCACHE_FILE with _ | f
    · rw [scanRows_cons_null r rest (Or.inl hf)] at h
      cases h
    · rcases hu : r.ZURL with _ | u
      · rw [scanRows_cons_null r rest (Or.inr hu)] at h
        cases h
      · rw [scanRows_cons_some r rest f u hf hu] at h
        simp only at h
        intro x hx
        rcases List.mem_cons.mp hx with hx | hx
        · subst hx
          exact ⟨f, hf⟩
        · exact ih h x hx

theorem scanRows_quiet (rows : List Row) : ∀ e ∈ (scanRows rows).2.2, quiet e = true := by
  induction rows with
  | nil => simp [scanRows]
  | cons r rest ih =>
    rcases hf : r.ZCACHE_FILE with _ | f
    · rw [scanRows_cons_null r rest (Or.inl hf)]
      simp
    · rcases hu : r.ZURL with _ | u
      · rw [scanRows_cons_null r rest (Or.inr hu)]
        simp
      · rw [scanRows_cons_some r rest f u hf hu]
        intro e he
        rcases List.mem_cons.mp he with he | he
        · subst he
          rfl
        · exact ih e he

theorem mem_selectRows (table : Table) (pattern : String) (r : Row) :
    r ∈ selectRows table pattern ↔ r ∈ table ∧ eligible pattern r = true := by
  unfold selectRows
  rw [(List.perm_insertionSort _ _).mem_iff, List.mem_filter]

theorem openGifwitDb_completed (table : Table) (faults : DbFaults) (bucket : String)
    (h : (openGifwitDb table faults bucket).1 = Exit.completed) :
    (openGifwitDb table faults bucket).2.1 =
      (selectRows table ("%" ++ bucket ++ "%")).map rowGif := by
  unfold openGifwitDb at h ⊢
  rcases hq : faults.queryErr with _ | err
  · rcases hr : faults.rowsErr with _ | ⟨n, err⟩
    · simp only [hq, hr] at h ⊢
      exact scanRows_completed _ h
    · simp only [hq, hr] at h ⊢
      rcases hs : scanRows (List.take n (selectRows table ("%" ++ bucket ++ "%")))
        with ⟨x, out, ev⟩
      rw [hs] at h
      cases x <;> simp at h
  · simp only [hq] at h
    cases h

theorem openGifwitDb_completed_files (table : Table) (faults : DbFaults) (bucket : String)
    (h : (openGifwitDb table faults bucket).1 = Exit.completed) :
    ∀ r ∈ selectRows table ("%" ++ bucket ++ "%"), ∃ f, r.ZCACHE_FILE = some f := by
  unfold openGifwitDb at h
  rcases hq : faults.queryErr with _ | err
  · rcases hr : faults.rowsErr with _ | ⟨n, err⟩
    · simp only [hq, hr] at h
      exact scanRows_completed_files _ h
    · simp only [hq, hr] at h
      rcases hs : scanRows (List.take n (selectRows table ("%" ++ bucket ++ "%")))
        with ⟨x, out, ev⟩
      rw [hs] at h
      cases x <;> simp at h
  · simp only [hq] at h
    cases h

theorem openGifwitDb_quiet (table : Table) (faults : DbFaults) (bucket : String) :
    ∀ e ∈ (openGifwitDb table faults bucket).2.2, quiet e = true := by
  unfold openGifwitDb
  rcases hq : faults.queryErr with _ | err
  · rcases hr : faults.rowsErr with _ | ⟨n, err⟩
    · simp only [hq, hr]
      intro e he
      rcases List.mem_cons.mp he with he | he
      · subst he; rfl
      · exact scanRows_quiet _ e he
    · simp only [hq, hr]
      have hsq := scanRows_quiet (List.take n (selectRows table ("%" ++ bucket ++ "%")))
      rcases hs : scanRows (List.take n (selectRows table ("%" ++ bucket ++ "%")))
        with ⟨x, out, ev⟩
      rw [hs] at hsq
      have : ∀ e ∈ Event.query ("%" ++ bucket ++ "%") :: ev, quiet e = true := by
        intro e he
        rcases List.mem_cons.mp he with he | he
        · subst he; rfl
        · exact hsq e he
      cases x <;> simpa using this
  · simp only [hq]
    intro e he
    rcases List.mem_singleton.mp he with rfl
    rfl

theorem hashGifsItem_noAccess (lib : Lib) (fs : FileSystem) (dir : String) (gif : Gif) (w : Unit)
    (h : fs (lib.filepathJoin dir gif.filename) = File.noAccess) :
    hashGifsItem lib fs dir gif w =
      (Step.fatal (GoError.plain "permission denied"),
        [Event.print (Line.gotFromHashChan gif.filename)], w) := by
  simp [hashGifsItem, Exists, hashFiles, osOpen, h]

theorem hashGifsItem_badPath (lib : Lib) (fs : FileSystem) (dir : String) (gif : Gif) (w : Unit)
    (err : GoError) (h : fs (lib.filepathJoin dir gif.filename) = File.badPath err) :
    hashGifsItem lib fs dir gif w =
      (Step.fatal err, [Event.print (Line.gotFromHashChan gif.filename)], w) := by
  simp [hashGifsItem, Exists, hashFiles, osOpen, h]

theorem hashGifsItem_ioError (lib : Lib) (fs : FileSystem) (dir : String) (gif : Gif) (w : Unit)
    (h : fs (lib.filepathJoin dir gif.filename) = File.ioError) :
    hashGifsItem lib fs dir gif w =
      (Step.fatal (GoError.plain "input/output error"),
        [Event.print (Line.gotFromHashChan gif.filename)], w) := by
  simp [hashGifsItem, Exists, hashFiles, osOpen, h]

theorem hashGifsItem_quiet (lib : Lib) (fs : FileSystem) (dir : String) (gif : Gif) (w : Unit) :
    ∀ e ∈ (hashGifsItem lib fs dir gif w).2.1, quiet e = true := by
  rcases hf : fs (lib.filepathJoin dir gif.filename) with _ | err | _ | _ | d
  · rw [hashGifsItem_absent lib fs dir gif w hf]
    simp [quiet]
  · rw [hashGifsItem_badPath lib fs dir gif w err hf]
    simp [quiet]
  · rw [hashGifsItem_noAccess lib fs dir gif w hf]
    simp [quiet]
  · rw [hashGifsItem_ioError lib fs dir gif w hf]
    simp [quiet]
  · rw [hashGifsItem_bytes lib fs dir gif w d hf]
    simp [quiet]

/-- A completed loop of `hashGifs` has forwarded exactly the items whose file
is readable, and every other file was absent. -/
theorem hashLoop_inv (lib : Lib) (fs : FileSystem) (dir : String) (l : List Gif)
    (h : (rangeLoop (hashGifsItem lib fs dir) l ()).1 = Exit.completed) :
    (rangeLoop (hashGifsItem lib fs dir) l ()).2.1 = l.filterMap (hashedGif lib fs dir)
      ∧ ∀ g ∈ l, fs (lib.filepathJoin dir g.filename) = File.absent
          ∨ ∃ d, fs (lib.filepathJoin dir g.filename) = File.bytes d := by
  induction l with
  | nil => simp [rangeLoop]
  | cons g rest ih =>
    rcases hf : fs (lib.filepathJoin dir g.filename) with _ | err | _ | _ | d
    · rw [rangeLoop_cons_skip _ g rest () () _ (hashGifsItem_absent lib fs dir g () hf)] at h ⊢
      obtain ⟨h1, h2⟩ := ih h
      refine ⟨?_, ?_⟩
      · simp only [h1]
        simp [List.filterMap_cons, hashedGif, hf]
      · intro x hx
        rcases List.mem_cons.mp hx with hx | hx
        · subst hx
          exact Or.inl hf
        · exact h2 x hx
    · rw [rangeLoop_cons_fatal _ g rest () () _ _ (hashGifsItem_badPath lib fs dir g () err hf)]
        at h
      cases h
    · rw [rangeLoop_cons_fatal _ g rest () () _ _ (hashGifsItem_noAccess lib fs dir g () hf)] at h
      cases h
    · rw [rangeLoop_cons_fatal _ g rest () () _ _ (hashGifsItem_ioError lib fs dir g () hf)] at h
      cases h
    · rw [rangeLoop_cons_forward _ g _ rest () () _ (hashGifsItem_bytes lib fs dir g () d hf)]
        at h ⊢
      obtain ⟨h1, h2⟩ := ih h
      refine ⟨?_, ?_⟩
      · simp only [h1]
        simp [List.filterMap_cons, hashedGif, hf]
      · intro x hx
        rcases List.mem_cons.mp hx with hx | hx
        · subst hx
          exact Or.inr ⟨d, hf⟩
        · exact h2 x hx

/-- On items whose files are all absent, `hashGifs` completes and forwards
nothing. -/
theorem hashLoop_all_absent (lib : Lib) (fs : FileSystem) (dir : String) (l : List Gif)
    (h : ∀ g ∈ l, fs (lib.filepathJoin dir g.filename) = File.absent) :
    (rangeLoop (hashGifsItem lib fs dir) l ()).1 = Exit.completed
      ∧ (rangeLoop (hashGifsItem lib fs dir) l ()).2.1 = [] := by
  induction l with
  | nil => simp [rangeLoop]
  | cons g rest ih =>
    rw [rangeLoop_cons_skip _ g rest () () _
      (hashGifsItem_absent lib fs dir g () (h g (List.mem_cons_self _ _)))]
    exact ih (fun x hx => h x (List.mem_cons_of_mem _ hx))

theorem forall₂_mem_right {α β : Type} (R : α → β → Prop) (l : List α) (out : List β)
    (h : List.Forall₂ R l out) : ∀ o ∈ out, ∃ g ∈ l, R g o := by
  induction h with
  | nil => simp
  | cons hab _ ih =>
    intro o ho
    rcases List.mem_cons.mp ho with ho | ho
    · subst ho
      exact ⟨_, List.mem_cons_self _ _, hab⟩
    · obtain ⟨g, hg, hr⟩ := ih o ho
      exact ⟨g, List.mem_cons_of_mem _ hg, hr⟩

theorem forall₂_mem_left {α β : Type} (R : α → β → Prop) (l : List α) (out : List β)
    (h : List.Forall₂ R l out) : ∀ g ∈ l, ∃ o ∈ out, R g o := by
  induction h with
  | nil => simp
  | cons hab _ ih =>
    intro g hg
    rcases List.mem_cons.mp hg with hg | hg
    · subst hg
      exact ⟨_, List.mem_cons_self _ _, hab⟩
    · obtain ⟨o, ho, hr⟩ := ih g hg
      exact ⟨o, List.mem_cons_of_mem _ ho, hr⟩

theorem Forwarded.mono {lib : Lib} {fs : FileSystem} {region bucket : String}
    {ev1 ev2 : List Event} {g o : Gif} (hsub : ∀ e ∈ ev1, e ∈ ev2)
    (h : Forwarded lib fs region bucket ev1 g o) : Forwarded lib fs region bucket ev2 g o := by
  obtain ⟨u, ho, hu⟩ := h
  exact ⟨u, ho, hu.imp id (hsub _)⟩

theorem Forwarded.id_eq {lib : Lib} {fs : FileSystem} {region bucket : String}
    {ev : List Event} {g o : Gif} (h : Forwarded lib fs region bucket ev g o) : o.id = g.id := by
  obtain ⟨u, ho, _⟩ := h
  rw [ho]

theorem forwarded_ids (lib : Lib) (fs : FileSystem) (region bucket : String) (ev : List Event)
    (l out : List Gif) (h : List.Forall₂ (Forwarded lib fs region bucket ev) l out) :
    out.map (fun g => g.id) = l.map (fun g => g.id) := by
  induction h with
  | nil => rfl
  | cons hab _ ih => simp [ih, hab.id_eq]

theorem uploadGif_some {σ : Type} (svc : S3 σ) (w : σ) (bucket key mimeType : String)
    (f : Handle) (loc : String) (h : (uploadGif svc w bucket key mimeType f).1 = some loc) :
    Event.print (Line.fileUploadedTo loc) ∈ (uploadGif svc w bucket key mimeType f).2.1 := by
  unfold uploadGif at h ⊢
  rcases hu : svc.upload w
      { bucket := bucket, key := key, body := f, acl := "public-read", contentType := mimeType }
    with ⟨ret, w1⟩
  simp only [hu] at h ⊢
  rcases hr : ret.result with _ | out
  · simp [hr] at h
  · simp only [hr] at h ⊢
    simp only [Option.some.injEq] at h
    subst h
    simp

/-- An item that `checkAndUploadGif` forwards carries the canonical URL of its
key or a location printed as uploaded. -/
theorem checkAndUploadGifItem_forward {σ : Type} (lib : Lib) (fs : FileSystem) (svc : S3 σ)
    (region bucket : String) (gif o : Gif) (w : σ)
    (h : (checkAndUploadGifItem lib fs svc region bucket gif w).1 = Step.forward o) :
    Forwarded lib fs region bucket (checkAndUploadGifItem lib fs svc region bucket gif w).2.1
      gif o := by
  rcases hx : objExists svc w bucket (remoteFilename lib fs gif) with ⟨b, ev, w1⟩
  cases b with
  | true =>
    rw [checkAndUploadGifItem_exists lib fs svc region bucket gif w w1 ev hx] at h ⊢
    simp only [Step.forward.injEq] at h
    exact ⟨_, h.symm, Or.inl rfl⟩
  | false =>
    rw [checkAndUploadGifItem_absent lib fs svc region bucket gif w w1 ev hx] at h ⊢
    have hsome := uploadGif_some svc w1 bucket (remoteFilename lib fs gif)
        (guessImageMimeTypes lib (osOpen fs gif.fullfilename).1) (osOpen fs gif.fullfilename).1
    rcases hu : uploadGif svc w1 bucket (remoteFilename lib fs gif)
        (guessImageMimeTypes lib (osOpen fs gif.fullfilename).1)
        (osOpen fs gif.fullfilename).1 with ⟨loc, ev2, w2⟩
    rw [hu] at h hsome
    cases loc with
    | none => simp at h
    | some l =>
      simp only [Step.forward.injEq] at h
      refine ⟨l, h.symm, Or.inr ?_⟩
      simp only [List.mem_append]
      exact Or.inr (hsome l rfl)

/-- A completed loop of `checkAndUploadGif` has sent one item for each item
received, in order. -/
theorem uploadLoop_inv {σ : Type} (lib : Lib) (fs : FileSystem) (svc : S3 σ)
    (region bucket : String) (l : List Gif) (w : σ)
    (h : (rangeLoop (checkAndUploadGifItem lib fs svc region bucket) l w).1 = Exit.completed) :
    List.Forall₂
      (Forwarded lib fs region bucket
        (rangeLoop (checkAndUploadGifItem lib fs svc region bucket) l w).2.2.1)
      l (rangeLoop (checkAndUploadGifItem lib fs svc region bucket) l w).2.1 := by
  induction l generalizing w with
  | nil => simp [rangeLoop]
  | cons g rest ih =>
    have hfw := checkAndUploadGifItem_forward lib fs svc region bucket g
    rcases step_cases (checkAndUploadGifItem lib fs svc region bucket g w)
      with ⟨x, hs⟩ | hs | hs | ⟨k, hs⟩
    · rw [rangeLoop_cons_fatal _ g rest w _ x _ hs] at h
      cases h
    · rw [rangeLoop_cons_panic _ g rest w _ _ hs] at h
      cases h
    · rcases checkAndUploadGifItem_never_skips lib fs svc region bucket g w with ⟨u, hu⟩ | hu
      · rw [hs] at hu; cases hu
      · rw [hs] at hu; cases hu
    · rw [rangeLoop_cons_forward _ g k rest w _ _ hs] at h ⊢
      have hk := hfw k w (by rw [hs])
      refine List.Forall₂.cons (hk.mono ?_) ((ih _ h).imp ?_)
      · intro e he
        exact List.mem_append_left _ he
      · intro a b hab
        exact hab.mono (fun e he => List.mem_append_right _ he)

theorem checkAndUploadGif_completed {σ : Type} (lib : Lib) (fs : FileSystem) (svc : S3 σ)
    (region bucket : String) (l : List Gif) (w : σ)
    (h : (checkAndUploadGif lib fs svc region bucket l w).1 = Exit.completed) :
    svc.newSession = none
      ∧ checkAndUploadGif lib fs svc region bucket l w =
          rangeLoop (checkAndUploadGifItem lib fs svc region bucket) l w := by
  unfold checkAndUploadGif at h ⊢
  rcases hs : svc.newSession with _ | err
  · simp
  · rw [hs] at h
    cases h

theorem writeItem_execFails (gif : Gif) (table : Table) (fl : List ExecFault) (err : GoError)
    (h : fl.headD ExecFault.none = ExecFault.execFails err) :
    writeItem gif (table, fl) =
      (Step.fatal err, [Event.exec gif.newURL gif.id], (table, fl.tail)) := by
  simp only [writeItem, h]

theorem writeItem_rowsAffectedFails (gif : Gif) (table : Table) (fl : List ExecFault)
    (err : GoError) (h : fl.headD ExecFault.none = ExecFault.rowsAffectedFails err) :
    writeItem gif (table, fl) =
      (Step.fatal err, [Event.exec gif.newURL gif.id],
        (sqlUpdate table gif.newURL gif.id, fl.tail)) := by
  simp only [writeItem, h]

/-- A completed loop of the writer has executed the update of every item, in
order. -/
theorem writeLoop_completed (items : List Gif) (table : Table) (fl : List ExecFault)
    (h : (rangeLoop writeItem items (table, fl)).1 = Exit.completed) :
    (rangeLoop writeItem items (table, fl)).2.2.2.1 = applyUpdates table items
      ∧ execCalls (rangeLoop writeItem items (table, fl)).2.2.1 =
          items.map (fun g => (g.newURL, g.id)) := by
  induction items generalizing table fl with
  | nil => simp [rangeLoop, applyUpdates, execCalls]
  | cons g rest ih =>
    rcases hf : fl.headD ExecFault.none with _ | err | err
    · rw [rangeLoop_cons_skip _ g rest _ _ _ (writeItem_ok g table fl hf)] at h ⊢
      obtain ⟨h1, h2⟩ := ih _ _ h
      refine ⟨?_, ?_⟩
      · simp only [h1]
        simp [applyUpdates]
      · simp only [execCalls_append, h2]
        simp [execCalls]
    · rw [rangeLoop_cons_fatal _ g rest _ _ _ _ (writeItem_execFails g table fl err hf)] at h
      cases h
    · rw [rangeLoop_cons_fatal _ g rest _ _ _ _ (writeItem_rowsAffectedFails g table fl err hf)]
        at h
      cases h

theorem writeNewURLToGifWit_completed (table : Table) (faults : DbFaults) (items : List Gif)
    (h : (writeNewURLToGifWit table faults items).1 = Exit.completed) :
    (writeNewURLToGifWit table faults items).2.2 = applyUpdates table items
      ∧ execCalls (writeNewURLToGifWit table faults items).2.1 =
          items.map (fun g => (g.newURL, g.id)) := by
  unfold writeNewURLToGifWit at h ⊢
  rcases hp : faults.prepareErr with _ | err
  · simp only [hp] at h ⊢
    obtain ⟨h1, h2⟩ := writeLoop_completed items table faults.execFaults h
    refine ⟨h1, ?_⟩
    rw [← h2]
    simp [execCalls]
  · simp only [hp] at h
    cases h

theorem writeNewURLToGifWit_nil (table : Table) (faults : DbFaults) :
    (writeNewURLToGifWit table faults []).2.2 = table
      ∧ ∀ e ∈ (writeNewURLToGifWit table faults []).2.1, quiet e = true := by
  unfold writeNewURLToGifWit
  rcases hp : faults.prepareErr with _ | err
  · simp [rangeLoop, quiet]
  · simp [quiet]

/-! ## The table after a run -/

theorem updateRow_cons (g : Gif) (rest : List Gif) (r : Row) :
    updateRow (g :: rest) r =
      updateRow rest (if r.Z_PK = g.id then { r with ZURL := some g.newURL } else r) := rfl

theorem applyUpdates_eq_map (table : Table) (items : List Gif) :
    applyUpdates table items = table.map (updateRow items) := by
  induction items generalizing table with
  | nil =>
    show table = table.map (fun r => r)
    simp
  | cons g rest ih =>
    have h : applyUpdates table (g :: rest) = applyUpdates (sqlUpdate table g.newURL g.id) rest :=
      rfl
    rw [h, ih, sqlUpdate, List.map_map]
    rfl

/-- Updates change column `ZURL` only. -/
theorem updateRow_fixed (items : List Gif) (r : Row) :
    (updateRow items r).Z_PK = r.Z_PK ∧ (updateRow items r).ZCACHE_FILE = r.ZCACHE_FILE
      ∧ (updateRow items r).ZDOWNLOADED = r.ZDOWNLOADED := by
  induction items generalizing r with
  | nil => exact ⟨rfl, rfl, rfl⟩
  | cons g rest ih =>
    rw [updateRow_cons]
    by_cases hg : r.Z_PK = g.id
    · rw [if_pos hg]
      exact ih _
    · rw [if_neg hg]
      exact ih _

/-- A row is left as it was when no item carries its key, and otherwise holds
the `newURL` of an item with its key. -/
theorem updateRow_url (items : List Gif) (r : Row) :
    (r.Z_PK ∉ items.map (fun g => g.id) ∧ updateRow items r = r)
      ∨ ∃ g ∈ items, g.id = r.Z_PK ∧ (updateRow items r).ZURL = some g.newURL := by
  induction items generalizing r with
  | nil => exact Or.inl ⟨by simp, rfl⟩
  | cons g rest ih =>
    rw [updateRow_cons]
    by_cases hg : r.Z_PK = g.id
    · rw [if_pos hg]
      rcases ih { r with ZURL := some g.newURL } with ⟨_, h2⟩ | ⟨k, hk, hid, hurl⟩
      · exact Or.inr ⟨g, List.mem_cons_self _ _, hg.symm, by rw [h2]⟩
      · exact Or.inr ⟨k, List.mem_cons_of_mem _ hk, hid, hurl⟩
    · rw [if_neg hg]
      rcases ih r with ⟨h1, h2⟩ | ⟨k, hk, hid, hurl⟩
      · refine Or.inl ⟨?_, h2⟩
        simp only [List.map_cons, List.mem_cons, not_or]
        exact ⟨hg, h1⟩
      · exact Or.inr ⟨k, List.mem_cons_of_mem _ hk, hid, hurl⟩

/-! ## Two runs -/

/-- A run that completes went through its four stages, each of which
completed. -/
theorem pipeline_completed {σ : Type} (lib : Lib) (fs : FileSystem) (svc : S3 σ)
    (dir region bucket : String) (table : Table) (faults : DbFaults) (w : σ)
    (table1 : Table) (w1 : σ) (ev1 : List Event)
    (h : pipeline lib fs svc dir region bucket table faults w =
      (Exit.completed, table1, w1, ev1)) :
    ∃ (hc uc sc : List Gif) (eva evb evc evd : List Event),
      openGifwitDb table faults bucket = (Exit.completed, hc, eva)
      ∧ hashGifs lib fs dir hc = (Exit.completed, uc, evb)
      ∧ checkAndUploadGif lib fs svc region bucket uc w = (Exit.completed, sc, evc, w1)
      ∧ writeNewURLToGifWit table faults sc = (Exit.completed, evd, table1)
      ∧ ev1 = eva ++ evb ++ evc ++ evd ++ [Event.print Line.mainCompleted] := by
  rcases he : openGifwitDb table faults bucket with ⟨x1, hc, eva⟩
  rcases hh : hashGifs lib fs dir hc with ⟨x2, uc, evb⟩
  rcases hu : checkAndUploadGif lib fs svc region bucket uc w with ⟨x3, sc, evc, w2⟩
  rcases hs : writeNewURLToGifWit table faults sc with ⟨x4, evd, table2⟩
  simp only [pipeline, he] at h
  by_cases c1 : x1 = Exit.completed
  · simp only [c1, if_true, hh] at h
    by_cases c2 : x2 = Exit.completed
    · simp only [c2, if_true, hu] at h
      by_cases c3 : x3 = Exit.completed
      · simp only [c3, if_true, hs] at h
        simp only [Prod.mk.injEq] at h
        obtain ⟨c4, ht, hw, hev⟩ := h
        subst c1 c2 c3 c4 ht hw
        simp only [if_true] at hev
        exact ⟨hc, uc, sc, eva, evb, evc, evd, rfl, hh, hu, hs, hev.symm⟩
      · simp only [c3, if_false, Prod.mk.injEq] at h
        exact h.1.elim
    · simp only [c2, if_false, Prod.mk.injEq] at h
      exact h.1.elim
  · simp only [c1, if_false, Prod.mk.injEq] at h
    exact h.1.elim

theorem objExists_events_no_exec {σ : Type} (svc : S3 σ) (w : σ) (bucket key : String) :
    ∀ e ∈ (objExists svc w bucket key).2.1, ∀ u i, e ≠ Event.exec u i := by
  unfold objExists
  rcases h : svc.headObject w bucket key with ⟨err, w1⟩
  rcases err with _ | ⟨code, message⟩ | message
  · simp
  · by_cases hc : code = "NotFound" <;> simp [hc]
  · simp

theorem uploadGif_events_no_exec {σ : Type} (svc : S3 σ) (w : σ) (bucket key mimeType : String)
    (f : Handle) :
    ∀ e ∈ (uploadGif svc w bucket key mimeType f).2.1, ∀ u i, e ≠ Event.exec u i := by
  unfold uploadGif
  rcases hu : svc.upload w
      { bucket := bucket, key := key, body := f, acl := "public-read", contentType := mimeType }
    with ⟨ret, w1⟩
  simp only [hu]
  rcases hr : ret.result with _ | out <;> rcases hq : ret.err with _ | err <;> simp [hr, hq]

theorem checkAndUploadGifItem_events_no_exec {σ : Type} (lib : Lib) (fs : FileSystem)
    (svc : S3 σ) (region bucket : String) (gif : Gif) (w : σ) :
    ∀ e ∈ (checkAndUploadGifItem lib fs svc region bucket gif w).2.1,
      ∀ u i, e ≠ Event.exec u i := by
  have hopen : ∀ e ∈ openReport gif (osOpen fs gif.fullfilename).2, ∀ u i, e ≠ Event.exec u i := by
    cases (osOpen fs gif.fullfilename).2 <;> simp [openReport]
  have hobj := objExists_events_no_exec svc w bucket (remoteFilename lib fs gif)
  rcases hx : objExists svc w bucket (remoteFilename lib fs gif) with ⟨b, ev, w1⟩
  rw [hx] at hobj
  cases b with
  | true =>
    rw [checkAndUploadGifItem_exists lib fs svc region bucket gif w w1 ev hx]
    intro e he
    simp only [List.mem_append, List.mem_singleton] at he
    rcases he with (he | he) | he
    · exact hopen e he
    · exact hobj e he
    · subst he
      simp
  | false =>
    rw [checkAndUploadGifItem_absent lib fs svc region bucket gif w w1 ev hx]
    have hup := uploadGif_events_no_exec svc w1 bucket (remoteFilename lib fs gif)
        (guessImageMimeTypes lib (osOpen fs gif.fullfilename).1) (osOpen fs gif.fullfilename).1
    rcases hu : uploadGif svc w1 bucket (remoteFilename lib fs gif)
        (guessImageMimeTypes lib (osOpen fs gif.fullfilename).1)
        (osOpen fs gif.fullfilename).1 with ⟨loc, ev2, w2⟩
    rw [hu] at hup
    have hall : ∀ e ∈ openReport gif (osOpen fs gif.fullfilename).2 ++ ev ++ ev2,
        ∀ u i, e ≠ Event.exec u i := by
      intro e he
      simp only [List.mem_append] at he
      rcases he with (he | he) | he
      · exact hopen e he
      · exact hobj e he
      · exact hup e he
    cases loc <;> exact hall

theorem execCalls_eq_nil (ev : List Event) (h : ∀ e ∈ ev, ∀ u i, e ≠ Event.exec u i) :
    execCalls ev = [] := by
  induction ev with
  | nil => rfl
  | cons e rest ih =>
    have hrest := ih (fun x hx => h x (List.mem_cons_of_mem _ hx))
    have he := h e (List.mem_cons_self _ _)
    cases e with
    | exec u i => exact absurd rfl (he u i)
    | print l => simpa [execCalls] using hrest
    | headObject b k => simpa [execCalls] using hrest
    | upload inp => simpa [execCalls] using hrest
    | query p => simpa [execCalls] using hrest
    | prepare => simpa [execCalls] using hrest

theorem quiet_not_exec (e : Event) (h : quiet e = true) : ∀ u i, e ≠ Event.exec u i := by
  intro u i he
  subst he
  simp [quiet] at h

theorem mem_uploadedLocations (ev : List Event) (u : String) :
    u ∈ uploadedLocations ev ↔ Event.print (Line.fileUploadedTo u) ∈ ev := by
  induction ev with
  | nil => simp [uploadedLocations]
  | cons e rest ih =>
    have hc : uploadedLocations (e :: rest) =
        (match e with
          | Event.print (Line.fileUploadedTo location) => [location]
          | _ => []) ++ uploadedLocations rest := by
      cases e with
      | print l => cases l <;> simp [uploadedLocations]
      | headObject b k => simp [uploadedLocations]
      | upload inp => simp [uploadedLocations]
      | query p => simp [uploadedLocations]
      | prepare => simp [uploadedLocations]
      | exec a b => simp [uploadedLocations]
    rw [hc, List.mem_append, ih, List.mem_cons]
    cases e with
    | print l => cases l <;> simp
    | headObject b k => simp
    | upload inp => simp
    | query p => simp
    | prepare => simp
    | exec a b => simp

theorem hashGifs_quiet (lib : Lib) (fs : FileSystem) (dir : String) (l : List Gif) :
    ∀ e ∈ (hashGifs lib fs dir l).2.2, quiet e = true := by
  rw [hashGifs_eq]
  exact rangeLoop_events _ (fun e => quiet e = true)
    (fun g w => hashGifsItem_quiet lib fs dir g w) l ()

/-- What a completed run did, stage by stage. -/
theorem run_facts {σ : Type} (lib : Lib) (fs : FileSystem) (svc : S3 σ)
    (dir region bucket : String) (table : Table) (faults : DbFaults) (w : σ)
    (table1 : Table) (w1 : σ) (ev1 : List Event)
    (h : pipeline lib fs svc dir region bucket table faults w =
      (Exit.completed, table1, w1, ev1)) :
    ∃ (hc uc sc : List Gif) (evc : List Event),
      hc = (selectRows table ("%" ++ bucket ++ "%")).map rowGif
      ∧ (∀ r ∈ selectRows table ("%" ++ bucket ++ "%"), ∃ f, r.ZCACHE_FILE = some f)
      ∧ uc = hc.filterMap (hashedGif lib fs dir)
      ∧ (∀ g ∈ hc, fs (lib.filepathJoin dir g.filename) = File.absent
          ∨ ∃ d, fs (lib.filepathJoin dir g.filename) = File.bytes d)
      ∧ svc.newSession = none
      ∧ rangeLoop (checkAndUploadGifItem lib fs svc region bucket) uc w =
          (Exit.completed, sc, evc, w1)
      ∧ (∀ e ∈ evc, e ∈ ev1)
      ∧ table1 = table.map (updateRow sc)
      ∧ execCalls ev1 = sc.map (fun g => (g.newURL, g.id)) := by
  obtain ⟨hc, uc, sc, eva, evb, evc, evd, he, hh, hu, hs, hev⟩ :=
    pipeline_completed lib fs svc dir region bucket table faults w table1 w1 ev1 h
  have he1 := openGifwitDb_completed table faults bucket (by rw [he])
  have he2 := openGifwitDb_completed_files table faults bucket (by rw [he])
  have hqa := openGifwitDb_quiet table faults bucket
  rw [he] at he1 hqa
  simp only at he1 hqa
  have hh0 := hashGifs_eq lib fs dir hc
  rw [hh] at hh0
  simp only [Prod.mk.injEq] at hh0
  obtain ⟨hh1, hh2, hh3⟩ := hh0
  obtain ⟨hi1, hi2⟩ := hashLoop_inv lib fs dir hc hh1.symm
  have hqb := hashGifs_quiet lib fs dir hc
  rw [hh] at hqb
  simp only at hqb
  obtain ⟨hsess, hu1⟩ := checkAndUploadGif_completed lib fs svc region bucket uc w (by rw [hu])
  rw [hu] at hu1
  have hnc := rangeLoop_events (checkAndUploadGifItem lib fs svc region bucket)
    (fun e => ∀ u i, e ≠ Event.exec u i)
    (fun g w => checkAndUploadGifItem_events_no_exec lib fs svc region bucket g w) uc w
  rw [← hu1] at hnc
  simp only at hnc
  obtain ⟨hs1, hs2⟩ := writeNewURLToGifWit_completed table faults sc (by rw [hs])
  rw [hs] at hs1 hs2
  simp only at hs1 hs2
  refine ⟨hc, uc, sc, evc, he1, he2, ?_, hi2, hsess, hu1.symm, ?_, ?_, ?_⟩
  · rw [hh2, hi1]
  · intro e hev1
    rw [hev]
    simp only [List.mem_append]
    exact Or.inl (Or.inl (Or.inr hev1))
  · rw [hs1, applyUpdates_eq_map]
  · rw [hev]
    simp only [execCalls_append]
    rw [execCalls_eq_nil eva (fun e he => quiet_not_exec e (hqa e he)),
      execCalls_eq_nil evb (fun e he => quiet_not_exec e (hqb e he)),
      execCalls_eq_nil evc hnc, hs2]
    simp [execCalls]

theorem eligible_false_of_like (pattern : String) (r : Row) (u : String)
    (hu : r.ZURL = some u) (hl : sqlLike pattern.data u.data = true) :
    eligible pattern r = false := by
  simp [eligible, hu, hl]

/-- A run in which the file of every enumerated record is absent calls
neither S3 nor `Exec`, and leaves table and bucket as they were. -/
theorem pipeline_all_absent {σ : Type} (lib : Lib) (fs : FileSystem) (svc : S3 σ)
    (dir region bucket : String) (table : Table) (faults : DbFaults) (w : σ)
    (hsess : svc.newSession = none)
    (habs : ∀ r ∈ selectRows table ("%" ++ bucket ++ "%"),
      fs (lib.filepathJoin dir (rowGif r).filename) = File.absent) :
    (∀ e ∈ (pipeline lib fs svc dir region bucket table faults w).2.2.2, quiet e = true)
      ∧ (pipeline lib fs svc dir region bucket table faults w).2.1 = table
      ∧ (pipeline lib fs svc dir region bucket table faults w).2.2.1 = w := by
  have hqa := openGifwitDb_quiet table faults bucket
  by_cases c : (openGifwitDb table faults bucket).1 = Exit.completed
  · have hc := openGifwitDb_completed table faults bucket c
    have hall : ∀ g ∈ (openGifwitDb table faults bucket).2.1,
        fs (lib.filepathJoin dir g.filename) = File.absent := by
      intro g hg
      rw [hc] at hg
      obtain ⟨r, hr, rfl⟩ := List.mem_map.mp hg
      exact habs r hr
    obtain ⟨h1, h2⟩ := hashLoop_all_absent lib fs dir _ hall
    have hqb := hashGifs_quiet lib fs dir (openGifwitDb table faults bucket).2.1
    have hh1 : (hashGifs lib fs dir (openGifwitDb table faults bucket).2.1).1 = Exit.completed := by
      rw [hashGifs_eq]
      exact h1
    have hh2 : (hashGifs lib fs dir (openGifwitDb table faults bucket).2.1).2.1 = [] := by
      rw [hashGifs_eq]
      exact h2
    have hu : checkAndUploadGif lib fs svc region bucket [] w = (Exit.completed, [], [], w) := by
      simp [checkAndUploadGif, hsess, rangeLoop]
    obtain ⟨hw1, hw2⟩ := writeNewURLToGifWit_nil table faults
    have hp : pipeline lib fs svc dir region bucket table faults w =
        ((writeNewURLToGifWit table faults []).1, (writeNewURLToGifWit table faults []).2.2, w,
          (openGifwitDb table faults bucket).2.2 ++
            (hashGifs lib fs dir (openGifwitDb table faults bucket).2.1).2.2 ++ [] ++
            (writeNewURLToGifWit table faults []).2.1 ++
            (if (writeNewURLToGifWit table faults []).1 = Exit.completed
              then [Event.print Line.mainCompleted] else [])) := by
      simp only [pipeline, c, if_true, hh1, hh2, hu]
    rw [hp]
    refine ⟨?_, hw1, rfl⟩
    intro e he
    simp only [List.mem_append, List.append_nil] at he
    rcases he with ((he | he) | he) | he
    · exact hqa e he
    · exact hqb e he
    · exact hw2 e he
    · by_cases cw : (writeNewURLToGifWit table faults []).1 = Exit.completed
      · rw [if_pos cw] at he
        rcases List.mem_singleton.mp he with rfl
        rfl
      · rw [if_neg cw] at he
        cases he
  · have hp : pipeline lib fs svc dir region bucket table faults w =
        ((openGifwitDb table faults bucket).1, table, w, (openGifwitDb table faults bucket).2.2) := by
      simp only [pipeline, c, if_false]
    rw [hp]
    exact ⟨hqa, rfl, rfl⟩

/-- C4, as amended: running the pipeline twice on the same record store and
remote store with no local file changes is idempotent when the first run
completes and every location it got back from the uploader contains the bucket
name (as the URLs it builds itself do). Every URL the first run wrote is then
rejected by the enumerator's filter `ZURL NOT LIKE '%'+bucket+'%'`, so no
record it updated is enumerated again; the second run, whatever the record
store reports in it, makes no `HeadObject` call, uploads no object, executes no
update, and leaves the table and the bucket as the first run left them. -/
theorem second_run_changes_nothing {σ : Type} (lib : Lib) (fs : FileSystem) (svc : S3 σ)
    (dir region bucket : String) (table : Table) (faults1 faults2 : DbFaults) (w : σ)
    (table1 : Table) (w1 : σ) (ev1 : List Event)
    (hrun : pipeline lib fs svc dir region bucket table faults1 w =
      (Exit.completed, table1, w1, ev1))
    (hloc : ∀ u ∈ uploadedLocations ev1, List.IsInfix bucket.data u.data) :
    (∀ u i, (u, i) ∈ execCalls ev1 → sqlLike ("%" ++ bucket ++ "%").data u.data = true)
      ∧ (∀ r ∈ table1, (∃ u, (u, r.Z_PK) ∈ execCalls ev1) →
          eligible ("%" ++ bucket ++ "%") r = false)
      ∧ (∀ input, Event.upload input ∉
          (pipeline lib fs svc dir region bucket table1 faults2 w1).2.2.2)
      ∧ (∀ b k, Event.headObject b k ∉
          (pipeline lib fs svc dir region bucket table1 faults2 w1).2.2.2)
      ∧ execCalls (pipeline lib fs svc dir region bucket table1 faults2 w1).2.2.2 = []
      ∧ (pipeline lib fs svc dir region bucket table1 faults2 w1).2.1 = table1
      ∧ (pipeline lib fs svc dir region bucket table1 faults2 w1).2.2.1 = w1 := by
  obtain ⟨hc, uc, sc, evc, hhc, _, huc, hfiles, hsess, hloop, hsub, htab, hexec⟩ :=
    run_facts lib fs svc dir region bucket table faults1 w table1 w1 ev1 hrun
  have hfw := uploadLoop_inv lib fs svc region bucket uc w (by rw [hloop])
  rw [hloop] at hfw
  simp only at hfw
  have hA : ∀ o ∈ sc, sqlLike ("%" ++ bucket ++ "%").data o.newURL.data = true := by
    intro o ho
    obtain ⟨g, _, u, hou, hu⟩ := forall₂_mem_right _ _ _ hfw o ho
    subst hou
    rcases hu with hu | hu
    · subst hu
      exact sqlLike_of_contains _ _ (canonicalURL_contains_bucket _ _ _)
    · exact sqlLike_of_contains _ _ (hloc u ((mem_uploadedLocations ev1 u).mpr (hsub _ hu)))
  have hids := forwarded_ids lib fs region bucket evc uc sc hfw
  have habs : ∀ r ∈ selectRows table1 ("%" ++ bucket ++ "%"),
      fs (lib.filepathJoin dir (rowGif r).filename) = File.absent := by
    intro r hr
    obtain ⟨hmem, helig⟩ := (mem_selectRows _ _ _).mp hr
    rw [htab] at hmem
    obtain ⟨r0, hr0, rfl⟩ := List.mem_map.mp hmem
    rcases updateRow_url sc r0 with ⟨hnot, hsame⟩ | ⟨k, hk, _, hurl⟩
    · rw [hsame] at helig ⊢
      have hin : rowGif r0 ∈ hc := by
        rw [hhc]
        exact List.mem_map.mpr ⟨r0, (mem_selectRows _ _ _).mpr ⟨hr0, helig⟩, rfl⟩
      rcases hfiles _ hin with h0 | ⟨d, hd⟩
      · exact h0
      · exfalso
        apply hnot
        rw [hids, huc]
        refine List.mem_map.mpr
          ⟨{ rowGif r0 with hash := lib.md5Hex d,
                            fullfilename := lib.filepathJoin dir (rowGif r0).filename },
            List.mem_filterMap.mpr ⟨rowGif r0, hin, ?_⟩, rfl⟩
        simp [hashedGif, hd]
    · rw [eligible_false_of_like _ _ _ hurl (hA k hk)] at helig
      cases helig
  obtain ⟨hq, ht, hw⟩ :=
    pipeline_all_absent lib fs svc dir region bucket table1 faults2 w1 hsess habs
  refine ⟨?_, ?_, ?_, ?_, ?_, ht, hw⟩
  · intro u i hui
    rw [hexec] at hui
    obtain ⟨o, ho, heq⟩ := List.mem_map.mp hui
    simp only [Prod.mk.injEq] at heq
    rw [← heq.1]
    exact hA o ho
  · intro r hr hex
    obtain ⟨u, hu⟩ := hex
    rw [htab] at hr
    obtain ⟨r0, _, rfl⟩ := List.mem_map.mp hr
    rw [hexec] at hu
    obtain ⟨o, ho, heq⟩ := List.mem_map.mp hu
    simp only [Prod.mk.injEq] at heq
    rcases updateRow_url sc r0 with ⟨hnot, _⟩ | ⟨k, hk, _, hurl⟩
    · exfalso
      apply hnot
      refine List.mem_map.mpr ⟨o, ho, ?_⟩
      rw [heq.2]
      exact (updateRow_fixed sc r0).1
    · exact eligible_false_of_like _ _ _ hurl (hA k hk)
  · intro input hin
    have := hq _ hin
    simp [quiet] at this
  · intro b k hin
    have := hq _ hin
    simp [quiet] at this
  · exact execCalls_eq_nil _ (fun e he => quiet_not_exec e (hq e he))

/-- Instance of C4: the sample run uploads `0a.gif` once and updates records
1 and 2; a second run on its table and bucket does not upload `a.gif`, executes
no update, and leaves the table as it is. -/
theorem second_run_changes_nothing_witness :
    Event.upload uploadOfA ∉
        (pipeline demoLib demoFs demoS3 "/g" "us-west-2" "durablewit" firstRun.2.1 noFaults
          firstRun.2.2.1).2.2.2
      ∧ execCalls (pipeline demoLib demoFs demoS3 "/g" "us-west-2" "durablewit" firstRun.2.1
          noFaults firstRun.2.2.1).2.2.2 = []
      ∧ (pipeline demoLib demoFs demoS3 "/g" "us-west-2" "durablewit" firstRun.2.1 noFaults
          firstRun.2.2.1).2.1 = firstRun.2.1 :=
  have h := second_run_changes_nothing demoLib demoFs demoS3 "/g" "us-west-2" "durablewit"
    demoTable noFaults noFaults [] firstRun.2.1 firstRun.2.2.1 firstRun.2.2.2 rfl
    (by
      intro u hu
      have hu1 : u ∈ ["https://durablewit.s3.us-west-2.amazonaws.com/0a.gif"] := hu
      rw [List.mem_singleton.mp hu1]
      exact ⟨"https://".data, ".s3.us-west-2.amazonaws.com/0a.gif".data, rfl⟩)
  ⟨h.2.2.1 uploadOfA, h.2.2.2.2.1, h.2.2.2.2.2.1⟩

/-- C4 as stated fails, in two ways. Against an endpoint whose locations do
not contain the bucket name, the first run completes and writes such a location
into record 1; the second run selects record 1 again, finds its key in the
bucket, and executes an update for it, so that the table changes. And when the
first run ends in `log.Fatal` at its query, nothing has been uploaded, and the
second run uploads `a.gif`. -/
theorem second_run_updates_again :
    cdnRun.1 = Exit.completed
      ∧ execCalls cdnRun.2.2.2 =
          [("https://cdn.example.net/0a.gif", 1),
           ("https://s3-us-west-2.amazonaws.com/durablewit/0a.gif", 2)]
      ∧ execCalls (pipeline demoLib demoFs cdnS3 "/g" "us-west-2" "durablewit" cdnRun.2.1
          noFaults cdnRun.2.2.1).2.2.2 =
          [("https://s3-us-west-2.amazonaws.com/durablewit/0a.gif", 1)]
      ∧ (pipeline demoLib demoFs cdnS3 "/g" "us-west-2" "durablewit" cdnRun.2.1 noFaults
          cdnRun.2.2.1).2.1 ≠ cdnRun.2.1
      ∧ failedRun.1 = Exit.fatal (GoError.plain "database is locked")
      ∧ failedRun.2.1 = demoTable
      ∧ failedRun.2.2.1 = []
      ∧ Event.upload uploadOfA ∈
          (pipeline demoLib demoFs demoS3 "/g" "us-west-2" "durablewit" failedRun.2.1 noFaults
            failedRun.2.2.1).2.2.2 := by
  refine ⟨rfl, rfl, rfl, ?_, rfl, rfl, rfl, ?_⟩
  · decide
  · decide

/-! ## A run against a bucket that answers truthfully -/

theorem stored_cons (objs : Objects) (b k b2 k2 : String) (d : List Nat) :
    stored (((b, k), d) :: objs) b2 k2 =
      if (b, k) = (b2, k2) then some d else stored objs b2 k2 := rfl

theorem honest_item_present (lib : Lib) (fs : FileSystem) (location : String → String → String)
    (region bucket : String) (gif : Gif) (objs : Objects) (body : List Nat)
    (h : stored objs bucket (remoteFilename lib fs gif) = some body) :
    checkAndUploadGifItem lib fs (s3Model location none none) region bucket gif objs =
      (Step.forward { gif with newURL := canonicalURL region bucket (remoteFilename lib fs gif) },
        (checkAndUploadGifItem lib fs (s3Model location none none) region bucket gif objs).2.1,
        objs) := by
  have hx : objExists (s3Model location none none) objs bucket (remoteFilename lib fs gif) =
      (true, [Event.headObject bucket (remoteFilename lib fs gif)], objs) := by
    simp [objExists, s3Model, h]
  rw [checkAndUploadGifItem_exists lib fs _ region bucket gif objs objs _ hx]

theorem honest_item_absent (lib : Lib) (fs : FileSystem) (location : String → String → String)
    (region bucket : String) (gif : Gif) (objs : Objects) (d : List Nat)
    (hd : fs gif.fullfilename = File.bytes d)
    (h : stored objs bucket (remoteFilename lib fs gif) = none) :
    checkAndUploadGifItem lib fs (s3Model location none none) region bucket gif objs =
      (Step.forward { gif with newURL := location bucket (remoteFilename lib fs gif) },
        (checkAndUploadGifItem lib fs (s3Model location none none) region bucket gif objs).2.1,
        ((bucket, remoteFilename lib fs gif), d) :: objs) := by
  have hx : objExists (s3Model location none none) objs bucket (remoteFilename lib fs gif) =
      (false, [Event.headObject bucket (remoteFilename lib fs gif)], objs) := by
    simp [objExists, s3Model, h]
  have ho : osOpen fs gif.fullfilename = (Handle.reading d, none) := by
    simp [osOpen, hd]
  rw [checkAndUploadGifItem_absent lib fs _ region bucket gif objs objs _ hx]
  simp [ho, uploadGif, s3Model]

/-- Against a bucket that answers truthfully and accepts uploads, the loop of
`checkAndUploadGif` over hashed items of readable files completes; it keeps
every key of these files bound to the bytes of its file, never unbinds a key,
and sends each item on with the canonical URL of its key or the location
reported for it. -/
theorem honest_loop (lib : Lib) (fs : FileSystem) (location : String → String → String)
    (region bucket : String) (F : List Nat → Prop)
    (hinj : ∀ d e, F d → F e → contentKey lib d = contentKey lib e → d = e)
    (l : List Gif) (objs : Objects)
    (hl : ∀ g ∈ l, ∃ d, F d ∧ fs g.fullfilename = File.bytes d ∧ g.hash = lib.md5Hex d)
    (hinv : ∀ d, F d → ∀ body, stored objs bucket (contentKey lib d) = some body → body = d) :
    ∃ (out : List Gif) (ev : List Event) (objs1 : Objects),
      rangeLoop (checkAndUploadGifItem lib fs (s3Model location none none) region bucket) l objs
          = (Exit.completed, out, ev, objs1)
      ∧ (∀ d, F d → ∀ body, stored objs1 bucket (contentKey lib d) = some body → body = d)
      ∧ (∀ k, (stored objs bucket k).isSome → (stored objs1 bucket k).isSome)
      ∧ ∀ g ∈ l, ∀ d, fs g.fullfilename = File.bytes d → g.hash = lib.md5Hex d →
          (stored objs1 bucket (contentKey lib d)).isSome
            ∧ ∃ o ∈ out, o.id = g.id
                ∧ (o.newURL = canonicalURL region bucket (contentKey lib d)
                    ∨ o.newURL = location bucket (contentKey lib d)) := by
  induction l generalizing objs with
  | nil => exact ⟨[], [], objs, rfl, hinv, fun k h => h, by simp⟩
  | cons g rest ih =>
    obtain ⟨d, hFd, hfd, hhash⟩ := hl g (List.mem_cons_self _ _)
    have hK : remoteFilename lib fs g = contentKey lib d := by
      rw [remoteFilename_of_bytes lib fs g d hfd, hhash]
      rfl
    have hrest : ∀ x ∈ rest, ∃ d, F d ∧ fs x.fullfilename = File.bytes d ∧ x.hash = lib.md5Hex d :=
      fun x hx => hl x (List.mem_cons_of_mem _ hx)
    rcases hst : stored objs bucket (contentKey lib d) with _ | body
    · have hstep := honest_item_absent lib fs location region bucket g objs d hfd
        (by rw [hK]; exact hst)
      rw [hK] at hstep
      have hinv1 : ∀ e, F e → ∀ body,
          stored (((bucket, contentKey lib d), d) :: objs) bucket (contentKey lib e) = some body →
            body = e := by
        intro e hFe body hb
        rw [stored_cons] at hb
        by_cases hke : (bucket, contentKey lib d) = (bucket, contentKey lib e)
        · rw [if_pos hke] at hb
          simp only [Option.some.injEq] at hb
          have hk2 : contentKey lib d = contentKey lib e := (Prod.mk.inj hke).2
          rw [← hb]
          exact hinj d e hFd hFe hk2
        · rw [if_neg hke] at hb
          exact hinv e hFe body hb
      obtain ⟨out, ev, objs1, heq, hi, hm, hp⟩ := ih _ hrest hinv1
      refine ⟨{ g with newURL := location bucket (contentKey lib d) } :: out,
        (checkAndUploadGifItem lib fs (s3Model location none none) region bucket g objs).2.1
          ++ ev, objs1, ?_, hi, ?_, ?_⟩
      · rw [rangeLoop_cons_forward _ g _ rest objs _ _ hstep, heq]
      · intro k hk
        apply hm
        rw [stored_cons]
        by_cases hke : (bucket, contentKey lib d) = (bucket, k)
        · rw [if_pos hke]
          rfl
        · rw [if_neg hke]
          exact hk
      · intro x hx e hfe hhe
        rcases List.mem_cons.mp hx with hx | hx
        · subst hx
          have hde : d = e := by
            rw [hfd] at hfe
            exact File.bytes.inj hfe
          subst hde
          refine ⟨?_, _, List.mem_cons_self _ _, rfl, Or.inr rfl⟩
          apply hm
          rw [stored_cons, if_pos rfl]
          rfl
        · obtain ⟨h1, o, ho, h2⟩ := hp x hx e hfe hhe
          exact ⟨h1, o, List.mem_cons_of_mem _ ho, h2⟩
    · have hstep := honest_item_present lib fs location region bucket g objs body
        (by rw [hK]; exact hst)
      rw [hK] at hstep
      obtain ⟨out, ev, objs1, heq, hi, hm, hp⟩ := ih objs hrest hinv
      refine ⟨{ g with newURL := canonicalURL region bucket (contentKey lib d) } :: out,
        (checkAndUploadGifItem lib fs (s3Model location none none) region bucket g objs).2.1
          ++ ev, objs1, ?_, hi, hm, ?_⟩
      · rw [rangeLoop_cons_forward _ g _ rest objs _ _ hstep, heq]
      · intro x hx e hfe hhe
        rcases List.mem_cons.mp hx with hx | hx
        · subst hx
          have hde : d = e := by
            rw [hfd] at hfe
            exact File.bytes.inj hfe
          subst hde
          refine ⟨?_, _, List.mem_cons_self _ _, rfl, Or.inl rfl⟩
          apply hm
          rw [hst]
          rfl
        · obtain ⟨h1, o, ho, h2⟩ := hp x hx e hfe hhe
          exact ⟨h1, o, List.mem_cons_of_mem _ ho, h2⟩

theorem hashedGif_id (lib : Lib) (fs : FileSystem) (dir : String) (g k : Gif)
    (h : hashedGif lib fs dir g = some k) : k.id = g.id := by
  unfold hashedGif at h
  rcases hf : fs (lib.filepathJoin dir g.filename) with _ | err | _ | _ | d <;> rw [hf] at h
  · cases h
  · cases h
  · cases h
  · cases h
  · simp only [Option.some.injEq] at h
    rw [← h]

theorem mem_ids_filterMap_hashed (lib : Lib) (fs : FileSystem) (dir : String) (l : List Gif)
    (i : Int) (h : i ∈ (l.filterMap (hashedGif lib fs dir)).map (fun g => g.id)) :
    i ∈ l.map (fun g => g.id) := by
  obtain ⟨k, hk, rfl⟩ := List.mem_map.mp h
  obtain ⟨g, hg, hgk⟩ := List.mem_filterMap.mp hk
  exact List.mem_map.mpr ⟨g, hg, (hashedGif_id lib fs dir g k hgk).symm⟩

theorem nodup_ids_filterMap_hashed (lib : Lib) (fs : FileSystem) (dir : String) (l : List Gif)
    (h : (l.map (fun g => g.id)).Nodup) :
    ((l.filterMap (hashedGif lib fs dir)).map (fun g => g.id)).Nodup := by
  induction l with
  | nil => simp
  | cons g rest ih =>
    rw [List.map_cons, List.nodup_cons] at h
    rcases hk : hashedGif lib fs dir g with _ | k
    · rw [List.filterMap_cons_none hk]
      exact ih h.2
    · rw [List.filterMap_cons_some hk, List.map_cons, List.nodup_cons]
      refine ⟨?_, ih h.2⟩
      intro hmem
      rw [hashedGif_id lib fs dir g k hk] at hmem
      exact h.1 (mem_ids_filterMap_hashed lib fs dir rest _ hmem)

theorem nodup_selectRows (table : Table) (pattern : String)
    (h : (table.map (fun r => r.Z_PK)).Nodup) :
    ((selectRows table pattern).map (fun r => r.Z_PK)).Nodup := by
  unfold selectRows
  rw [((List.perm_insertionSort _ _).map _).nodup_iff]
  exact h.sublist (List.Sublist.map _ (List.filter_sublist _))

theorem hashedGif_some (lib : Lib) (fs : FileSystem) (dir : String) (g k : Gif)
    (h : hashedGif lib fs dir g = some k) :
    ∃ d, fs (lib.filepathJoin dir g.filename) = File.bytes d
      ∧ k = { g with hash := lib.md5Hex d, fullfilename := lib.filepathJoin dir g.filename } := by
  unfold hashedGif at h
  rcases hf : fs (lib.filepathJoin dir g.filename) with _ | err | _ | _ | d <;> rw [hf] at h
  · cases h
  · cases h
  · cases h
  · cases h
  · simp only [Option.some.injEq] at h
    exact ⟨d, rfl, h.symm⟩

/-- C1, as amended: for every record emitted by the enumerator whose local
file exists and is readable, after a run that ends without a fatal error
against a bucket that answers every existence check from the objects it holds
and stores every upload, in a table whose keys `Z_PK` are distinct, and
provided that the key of an enumerated file is shared only with enumerated
files of the same bytes and with objects already stored that hold the same
bytes: the record's `ZURL` is the canonical URL of the key
`hex(md5(file bytes)) + "." + format` in the target bucket, or the location
the uploader reported for that key, and the object stored under that key is
byte-identical to the record's local file. -/
theorem migrated_record_resolves (lib : Lib) (fs : FileSystem)
    (location : String → String → String) (dir region bucket : String) (table : Table)
    (faults : DbFaults) (objs : Objects) (table1 : Table) (objs1 : Objects) (ev1 : List Event)
    (hrun : pipeline lib fs (s3Model location none none) dir region bucket table faults objs =
      (Exit.completed, table1, objs1, ev1))
    (hpk : (table.map (fun r => r.Z_PK)).Nodup)
    (hfaithful : ∀ d, EnumeratedFile lib fs dir bucket table d →
      ∀ body, stored objs bucket (contentKey lib d) = some body → body = d)
    (hdistinct : ∀ d e, EnumeratedFile lib fs dir bucket table d →
      EnumeratedFile lib fs dir bucket table e → contentKey lib d = contentKey lib e → d = e)
    (r : Row) (hr : r ∈ table) (helig : eligible ("%" ++ bucket ++ "%") r = true)
    (f : String) (d : List Nat) (hf : r.ZCACHE_FILE = some f)
    (hd : fs (lib.filepathJoin dir f) = File.bytes d) :
    ∃ r1 ∈ table1, r1.Z_PK = r.Z_PK
      ∧ stored objs1 bucket (contentKey lib d) = some d
      ∧ (r1.ZURL = some (canonicalURL region bucket (contentKey lib d))
          ∨ r1.ZURL = some (location bucket (contentKey lib d))) := by
  obtain ⟨hc, uc, sc, evc, hhc, hnn, huc, _, _, hloop, _, htab, _⟩ :=
    run_facts lib fs (s3Model location none none) dir region bucket table faults objs table1
      objs1 ev1 hrun
  have hfw := uploadLoop_inv lib fs (s3Model location none none) region bucket uc objs
    (by rw [hloop])
  rw [hloop] at hfw
  simp only at hfw
  have hids := forwarded_ids lib fs region bucket evc uc sc hfw
  have hl : ∀ k ∈ uc, ∃ e, EnumeratedFile lib fs dir bucket table e
      ∧ fs k.fullfilename = File.bytes e ∧ k.hash = lib.md5Hex e := by
    intro k hk
    rw [huc] at hk
    obtain ⟨g, hg, hgk⟩ := List.mem_filterMap.mp hk
    rw [hhc] at hg
    obtain ⟨r0, hr0, rfl⟩ := List.mem_map.mp hg
    obtain ⟨e, he, rfl⟩ := hashedGif_some lib fs dir _ k hgk
    obtain ⟨f0, hf0⟩ := hnn r0 hr0
    obtain ⟨hm0, he0⟩ := (mem_selectRows _ _ _).mp hr0
    have hname : (rowGif r0).filename = f0 := by simp [rowGif, hf0]
    rw [hname] at he
    exact ⟨e, ⟨r0, hm0, he0, f0, hf0, he⟩, by simpa [hname] using he, rfl⟩
  obtain ⟨out, ev, o1, heq, hi, _, hp⟩ :=
    honest_loop lib fs location region bucket (EnumeratedFile lib fs dir bucket table) hdistinct
      uc objs hl hfaithful
  rw [hloop] at heq
  simp only [Prod.mk.injEq, true_and] at heq
  obtain ⟨hout, _, hobjs⟩ := heq
  subst hout hobjs
  have hname : (rowGif r).filename = f := by simp [rowGif, hf]
  have hin : rowGif r ∈ hc := by
    rw [hhc]
    exact List.mem_map.mpr ⟨r, (mem_selectRows _ _ _).mpr ⟨hr, helig⟩, rfl⟩
  have hk0 : { rowGif r with hash := lib.md5Hex d,
                             fullfilename := lib.filepathJoin dir f } ∈ uc := by
    rw [huc]
    refine List.mem_filterMap.mpr ⟨rowGif r, hin, ?_⟩
    simp [hashedGif, hname, hd]
  obtain ⟨hsome, o, ho, hoid, hourl⟩ := hp _ hk0 d hd rfl
  have hFd : EnumeratedFile lib fs dir bucket table d := ⟨r, hr, helig, f, hf, hd⟩
  have hstored : stored objs1 bucket (contentKey lib d) = some d := by
    rcases hs : stored objs1 bucket (contentKey lib d) with _ | body
    · rw [hs] at hsome
      cases hsome
    · rw [hi d hFd body hs]
  have hnodup : (sc.map (fun g => g.id)).Nodup := by
    rw [hids, huc]
    apply nodup_ids_filterMap_hashed
    rw [hhc, List.map_map]
    exact nodup_selectRows table _ hpk
  refine ⟨updateRow sc r, ?_, (updateRow_fixed sc r).1, hstored, ?_⟩
  · rw [htab]
    exact List.mem_map_of_mem _ hr
  · rcases updateRow_url sc r with ⟨hnot, _⟩ | ⟨k, hk, hkid, hurl⟩
    · exfalso
      apply hnot
      exact List.mem_map.mpr ⟨o, ho, hoid⟩
    · have hko : k = o := List.inj_on_of_nodup_map hnodup hk ho (by rw [hkid, hoid]; rfl)
      rw [hko] at hurl
      rw [hurl]
      rcases hourl with h | h
      · exact Or.inl (by rw [h])
      · exact Or.inr (by rw [h])

/-- In the sample table the readable files of enumerated records all hold the
bytes of `a.gif`. -/
theorem demo_enumerated (d : List Nat)
    (h : EnumeratedFile demoLib demoFs "/g" "durablewit" demoTable d) : d = [71, 73, 70, 1] := by
  obtain ⟨r, hr, he, f, hf, hd⟩ := h
  simp only [demoTable, List.mem_cons, List.mem_singleton, List.not_mem_nil, or_false] at hr
  rcases hr with rfl | rfl | rfl | rfl
  · simp only [Option.some.injEq] at hf
    subst hf
    have h2 : demoFs (demoLib.filepathJoin "/g" "b.gif") = File.bytes [71, 73, 70, 1] := rfl
    rw [h2] at hd
    exact (File.bytes.inj hd).symm
  · simp only [Option.some.injEq] at hf
    subst hf
    have h2 : demoFs (demoLib.filepathJoin "/g" "a.gif") = File.bytes [71, 73, 70, 1] := rfl
    rw [h2] at hd
    exact (File.bytes.inj hd).symm
  · simp only [Option.some.injEq] at hf
    subst hf
    have h2 : demoFs (demoLib.filepathJoin "/g" "gone.gif") = File.absent := rfl
    rw [h2] at hd
    cases hd
  · have h2 : eligible ("%" ++ "durablewit" ++ "%")
        { Z_PK := 4, ZCACHE_FILE := some "d.gif",
          ZURL := some "https://s3-us-west-2.amazonaws.com/durablewit/0b.gif",
          ZDOWNLOADED := some 1 } = false := rfl
    rw [h2] at he
    cases he

/-- Instance of C1: after the sample run, record 1 points at the location
reported for key `0a.gif` or at its canonical URL, and the bucket holds the
bytes of `a.gif` under that key. -/
theorem migrated_record_resolves_witness :
    ∃ r1 ∈ firstRun.2.1, r1.Z_PK = 1
      ∧ stored firstRun.2.2.1 "durablewit" (contentKey demoLib [71, 73, 70, 1]) =
          some [71, 73, 70, 1]
      ∧ (r1.ZURL = some (canonicalURL "us-west-2" "durablewit"
            (contentKey demoLib [71, 73, 70, 1]))
          ∨ r1.ZURL = some (vhostLocation "durablewit" (contentKey demoLib [71, 73, 70, 1]))) :=
  migrated_record_resolves demoLib demoFs vhostLocation "/g" "us-west-2" "durablewit" demoTable
    noFaults [] firstRun.2.1 firstRun.2.2.1 firstRun.2.2.2 rfl (by decide)
    (fun d _ body h => absurd h (by simp [stored]))
    (fun d e hd he _ => by rw [demo_enumerated d hd, demo_enumerated e he])
    { Z_PK := 1, ZCACHE_FILE := some "a.gif", ZURL := some "http://x/a.gif",
      ZDOWNLOADED := some 1 }
    (by decide) rfl "a.gif" [71, 73, 70, 1] rfl rfl

/-- C1 as stated fails. First, with `a.gif` readable and an empty bucket,
let every `HeadObject` fail with `Forbidden`: the run completes, record 1 is
given the canonical URL of key `0a.gif`, and the bucket holds nothing under
that key. Second, with a bucket that answers truthfully and already holds other
bytes under `0a.gif`: the run completes, record 1 is given the canonical URL,
and the object there is not the file. -/
theorem migrated_record_dangling :
    demoFs "/g/a.gif" = File.bytes [71, 73, 70, 1]
      ∧ (pipeline demoLib demoFs
          (s3Model vhostLocation (some (GoError.aws "Forbidden" "Forbidden")) none)
          "/g" "us-west-2" "durablewit" demoTable noFaults []).1 = Exit.completed
      ∧ { Z_PK := 1, ZCACHE_FILE := some "a.gif",
          ZURL := some "https://s3-us-west-2.amazonaws.com/durablewit/0a.gif",
          ZDOWNLOADED := some 1 } ∈
        (pipeline demoLib demoFs
          (s3Model vhostLocation (some (GoError.aws "Forbidden" "Forbidden")) none)
          "/g" "us-west-2" "durablewit" demoTable noFaults []).2.1
      ∧ stored (pipeline demoLib demoFs
          (s3Model vhostLocation (some (GoError.aws "Forbidden" "Forbidden")) none)
          "/g" "us-west-2" "durablewit" demoTable noFaults []).2.2.1 "durablewit" "0a.gif" = none
      ∧ (pipeline demoLib demoFs demoS3 "/g" "us-west-2" "durablewit" demoTable noFaults
          [(("durablewit", "0a.gif"), [0])]).1 = Exit.completed
      ∧ { Z_PK := 1, ZCACHE_FILE := some "a.gif",
          ZURL := some "https://s3-us-west-2.amazonaws.com/durablewit/0a.gif",
          ZDOWNLOADED := some 1 } ∈
        (pipeline demoLib demoFs demoS3 "/g" "us-west-2" "durablewit" demoTable noFaults
          [(("durablewit", "0a.gif"), [0])]).2.1
      ∧ stored (pipeline demoLib demoFs demoS3 "/g" "us-west-2" "durablewit" demoTable noFaults
          [(("durablewit", "0a.gif"), [0])]).2.2.1 "durablewit" "0a.gif" = some [0] := by
  refine ⟨rfl, rfl, ?_, rfl, rfl, ?_, rfl⟩
  · decide
  · decide

/-! ## Which records a run writes -/

/-- Whatever the failures, the writer leaves the table with the updates of a
prefix of its queue applied. -/
theorem writeLoop_prefix (items : List Gif) (table : Table) (fl : List ExecFault) :
    ∃ n, (rangeLoop writeItem items (table, fl)).2.2.2.1 = applyUpdates table (items.take n) := by
  induction items generalizing table fl with
  | nil => exact ⟨0, rfl⟩
  | cons g rest ih =>
    rcases hf : fl.headD ExecFault.none with _ | err | err
    · rw [rangeLoop_cons_skip _ g rest _ _ _ (writeItem_ok g table fl hf)]
      obtain ⟨n, hn⟩ := ih (sqlUpdate table g.newURL g.id) fl.tail
      exact ⟨n + 1, by simpa [applyUpdates] using hn⟩
    · rw [rangeLoop_cons_fatal _ g rest _ _ _ _ (writeItem_execFails g table fl err hf)]
      exact ⟨0, rfl⟩
    · rw [rangeLoop_cons_fatal _ g rest _ _ _ _ (writeItem_rowsAffectedFails g table fl err hf)]
      exact ⟨1, by simp [applyUpdates]⟩

theorem writeNewURLToGifWit_prefix (table : Table) (faults : DbFaults) (items : List Gif) :
    ∃ n, (writeNewURLToGifWit table faults items).2.2 = applyUpdates table (items.take n) := by
  unfold writeNewURLToGifWit
  rcases hp : faults.prepareErr with _ | err
  · simp only
    exact writeLoop_prefix items table faults.execFaults
  · exact ⟨0, rfl⟩

/-- Whatever its outcome, a run leaves the table with a list of updates
applied, each of them for a selected record whose file is readable. -/
theorem pipeline_table {σ : Type} (lib : Lib) (fs : FileSystem) (svc : S3 σ)
    (dir region bucket : String) (table : Table) (faults : DbFaults) (w : σ) :
    ∃ items : List Gif,
      (pipeline lib fs svc dir region bucket table faults w).2.1 = applyUpdates table items
      ∧ ∀ g ∈ items, ∃ r ∈ table, r.Z_PK = g.id
          ∧ ∃ f d, r.ZCACHE_FILE = some f ∧ fs (lib.filepathJoin dir f) = File.bytes d := by
  by_cases c1 : (openGifwitDb table faults bucket).1 = Exit.completed
  · by_cases c2 : (hashGifs lib fs dir (openGifwitDb table faults bucket).2.1).1 = Exit.completed
    · by_cases c3 : (checkAndUploadGif lib fs svc region bucket
          (hashGifs lib fs dir (openGifwitDb table faults bucket).2.1).2.1 w).1 = Exit.completed
      · obtain ⟨n, hn⟩ := writeNewURLToGifWit_prefix table faults
          (checkAndUploadGif lib fs svc region bucket
            (hashGifs lib fs dir (openGifwitDb table faults bucket).2.1).2.1 w).2.1
        refine ⟨List.take n (checkAndUploadGif lib fs svc region bucket
            (hashGifs lib fs dir (openGifwitDb table faults bucket).2.1).2.1 w).2.1, ?_, ?_⟩
        · simp only [pipeline, c1, c2, c3, if_true]
          exact hn
        · intro g hg
          have hg1 := List.mem_of_mem_take hg
          obtain ⟨_, hu1⟩ := checkAndUploadGif_completed lib fs svc region bucket _ w c3
          have hfw := uploadLoop_inv lib fs svc region bucket
            (hashGifs lib fs dir (openGifwitDb table faults bucket).2.1).2.1 w (by rw [← hu1]; exact c3)
          rw [← hu1] at hfw
          obtain ⟨k, hk, hkg⟩ := forall₂_mem_right _ _ _ hfw g hg1
          have hh1 : (rangeLoop (hashGifsItem lib fs dir) (openGifwitDb table faults bucket).2.1 ()).1
              = Exit.completed := by
            rw [hashGifs_eq] at c2
            exact c2
          obtain ⟨hi1, _⟩ := hashLoop_inv lib fs dir _ hh1
          rw [hashGifs_eq] at hk
          simp only at hk
          rw [hi1] at hk
          obtain ⟨g0, hg0, hgk⟩ := List.mem_filterMap.mp hk
          rw [openGifwitDb_completed table faults bucket c1] at hg0
          obtain ⟨r0, hr0, rfl⟩ := List.mem_map.mp hg0
          obtain ⟨f0, hf0⟩ := openGifwitDb_completed_files table faults bucket c1 r0 hr0
          obtain ⟨d, hd, hkd⟩ := hashedGif_some lib fs dir _ k hgk
          have hname : (rowGif r0).filename = f0 := by simp [rowGif, hf0]
          rw [hname] at hd
          refine ⟨r0, ((mem_selectRows _ _ _).mp hr0).1, ?_, f0, d, hf0, hd⟩
          rw [hkg.id_eq, hkd]
          rfl
      · refine ⟨[], ?_, by simp⟩
        simp only [pipeline, c1, c2, c3, if_true, if_false]
        rfl
    · refine ⟨[], ?_, by simp⟩
      simp only [pipeline, c1, c2, if_true, if_false]
      rfl
  · refine ⟨[], ?_, by simp⟩
    simp only [pipeline, c1, if_false]
    rfl

/-- C5, as amended: for every work item for whose resolved local file
`os.Stat` reports that it does not exist (a not-exist error, the state
`File.absent`), `hashGifs` forwards nothing for that item and raises no error:
the exit and the items sent on `uploadChan` are those of the same input without
the item. The record of such a file is left as it was by the run, whatever the
run's outcome (keys `Z_PK` being distinct). Every other item of the input whose
file exists and is readable is forwarded with its hash and full path set,
provided each item taken before it has a file that is reported not to exist or
a file that is readable. -/
theorem hashGifs_absent_file (lib : Lib) (fs : FileSystem) (dir : String) (gif : Gif)
    (habs : fs (lib.filepathJoin dir gif.filename) = File.absent) :
    hashGifsItem lib fs dir gif () =
        (Step.skip, [Event.print (Line.gotFromHashChan gif.filename)], ())
      ∧ (∀ before after : List Gif,
          (hashGifs lib fs dir (before ++ gif :: after)).1 =
              (hashGifs lib fs dir (before ++ after)).1
            ∧ (hashGifs lib fs dir (before ++ gif :: after)).2.1 =
              (hashGifs lib fs dir (before ++ after)).2.1)
      ∧ (∀ (σ : Type) (svc : S3 σ) (region bucket : String) (table : Table)
          (faults : DbFaults) (w : σ) (r : Row),
          (table.map (fun x => x.Z_PK)).Nodup → r ∈ table →
          r.ZCACHE_FILE = some gif.filename →
          r ∈ (pipeline lib fs svc dir region bucket table faults w).2.1)
      ∧ ∀ (before after : List Gif) (other : Gif) (d : List Nat),
          gif ∈ before ++ other :: after →
          (∀ g ∈ before, fs (lib.filepathJoin dir g.filename) = File.absent
              ∨ ∃ e, fs (lib.filepathJoin dir g.filename) = File.bytes e) →
          fs (lib.filepathJoin dir other.filename) = File.bytes d →
          { other with hash := lib.md5Hex d,
                       fullfilename := lib.filepathJoin dir other.filename }
            ∈ (hashGifs lib fs dir (before ++ other :: after)).2.1 := by
  refine ⟨hashGifsItem_absent lib fs dir gif () habs, ?_, ?_, ?_⟩
  · intro before after
    have hstep := rangeLoop_cons_skip _ gif after () () _ (hashGifsItem_absent lib fs dir gif () habs)
    simp only [hashGifs_eq, rangeLoop_append, hstep]
    by_cases hc : (rangeLoop (hashGifsItem lib fs dir) before ()).1 = Exit.completed
    · simp [hc]
    · simp [hc]
  · intro σ svc region bucket table faults w r hpk hr hf
    obtain ⟨items, htab, hitems⟩ := pipeline_table lib fs svc dir region bucket table faults w
    rw [htab, applyUpdates_eq_map]
    have hsame : updateRow items r = r := by
      rcases updateRow_url items r with ⟨_, h⟩ | ⟨g, hg, hid, _⟩
      · exact h
      · exfalso
        obtain ⟨r0, hr0, hpk0, f0, d, hf0, hd⟩ := hitems g hg
        have hrr : r0 = r := List.inj_on_of_nodup_map hpk hr0 hr (by rw [hpk0, hid])
        rw [hrr, hf] at hf0
        simp only [Option.some.injEq] at hf0
        rw [← hf0, habs] at hd
        cases hd
    exact List.mem_map.mpr ⟨r, hr, hsame⟩
  · intro before after other d _ hbefore hother
    have hc := hashLoop_completed lib fs dir before hbefore
    have hstep := rangeLoop_cons_forward _ other _ after () () _
      (hashGifsItem_bytes lib fs dir other () d hother)
    simp only [hashGifs_eq, rangeLoop_append, hstep, hc, if_true]
    simp

/-- Instance of C5: `gone.gif` is missing, `a.gif` before it and `b.gif` after
it are forwarded with hash and full path, and record 3 is in the table after
the sample run as it was before. -/
theorem hashGifs_absent_file_witness :
    hashGifsItem demoLib demoFs "/g" rawGone () =
        (Step.skip, [Event.print (Line.gotFromHashChan "gone.gif")], ())
      ∧ { Z_PK := 3, ZCACHE_FILE := some "gone.gif", ZURL := some "http://x/gone.gif",
          ZDOWNLOADED := some 1 } ∈ firstRun.2.1
      ∧ gifB ∈ (hashGifs demoLib demoFs "/g" ([rawA, rawGone] ++ rawB :: [])).2.1 :=
  ⟨(hashGifs_absent_file demoLib demoFs "/g" rawGone rfl).1,
   (hashGifs_absent_file demoLib demoFs "/g" rawGone rfl).2.2.1 Objects demoS3 "us-west-2"
      "durablewit" demoTable noFaults []
      { Z_PK := 3, ZCACHE_FILE := some "gone.gif", ZURL := some "http://x/gone.gif",
        ZDOWNLOADED := some 1 }
      (by decide) (by decide) rfl,
   (hashGifs_absent_file demoLib demoFs "/g" rawGone rfl).2.2.2 [rawA, rawGone] [] rawB
      [71, 73, 70, 1] (by decide)
      (by
        intro g hg
        rcases List.mem_pair.mp hg with rfl | rfl
        · exact Or.inr ⟨_, rfl⟩
        · exact Or.inl rfl)
      rfl⟩

/-- C5 as stated fails, in two ways. In the input `gone.gif`, `c.gif`,
`a.gif` the first file is missing and the last exists and is readable, yet
`a.gif` is not forwarded, because `c.gif` exists and cannot be opened and
`hashGifs` ends the process there. In the input `a.gif/x`, `b.gif` no file
exists at the first path, which lies below a regular file; `os.Stat` fails
there with an error that is not a not-exist error, `Exists` answers true, and
`hashGifs` ends the process on the missing file, before `b.gif`. -/
theorem hashGifs_readable_item_not_forwarded :
    demoFs (demoLib.filepathJoin "/g" rawGone.filename) = File.absent
      ∧ demoFs (demoLib.filepathJoin "/g" rawA.filename) = File.bytes [71, 73, 70, 1]
      ∧ hashGifs demoLib demoFs "/g" [rawGone, rawC, rawA] =
        (Exit.fatal (GoError.plain "permission denied"), [],
          [Event.print (Line.gotFromHashChan "gone.gif"),
           Event.print (Line.gotFromHashChan "c.gif")])
      ∧ gifA ∉ (hashGifs demoLib demoFs "/g" [rawGone, rawC, rawA]).2.1
      ∧ demoFs (demoLib.filepathJoin "/g" rawBelow.filename) =
          File.badPath (GoError.plain "not a directory")
      ∧ Exists demoFs (demoLib.filepathJoin "/g" rawBelow.filename) = true
      ∧ hashGifs demoLib demoFs "/g" [rawBelow, rawB] =
        (Exit.fatal (GoError.plain "not a directory"), [],
          [Event.print (Line.gotFromHashChan "a.gif/x")])
      ∧ gifB ∉ (hashGifs demoLib demoFs "/g" [rawBelow, rawB]).2.1 := by
  refine ⟨rfl, rfl, rfl, ?_, rfl, rfl, rfl, ?_⟩
  · decide
  · decide

end Durablewit
